import Mathlib

/-!
Shallow embedding of the seismic wave-field simulator: the Lehmer RNG,
the gradient-noise field with its memoized gradient cache, the fault
system, and the finite-difference wave solver with its disturbance
injector.  Grids are modelled as functions `ℕ → ℝ` indexed row-major,
the per-frame loops as list folds, and machine reals as `ℝ`.
-/

open scoped Classical

/-- Fixed solver time step (the JS constant `DT`). -/
noncomputable def DT : ℝ := 0.016

/-- Grid spacing (the JS constant `DX`). -/
noncomputable def DX : ℝ := 1

/-- The Lehmer / Park–Miller linear congruential generator.  Its JS seed is a
number that stays an exact integer below 2^53, so `ℕ` models it exactly. -/
structure RNG where
  seed : ℕ

/-- `next()` advances `seed ← seed * 16807 mod 2147483647` and returns
`(seed - 1) / 2147483646`; all arithmetic is exact in JS doubles, so the
returned value is the exact rational. -/
def RNG.next (r : RNG) : ℚ × RNG :=
  let s := r.seed * 16807 % 2147483647
  (((s : ℚ) - 1) / 2147483646, ⟨s⟩)

/-- The list of the first `n` values produced by `next()`. -/
def RNG.outputs : ℕ → RNG → List ℚ
  | 0, _ => []
  | n + 1, r => (r.next).1 :: RNG.outputs n (r.next).2

/-- `nextRange(min, max) = min + (max - min) * next()`. -/
noncomputable def RNG.nextRange (r : RNG) (lo hi : ℝ) : ℝ × RNG :=
  let n := r.next
  (lo + (hi - lo) * (n.1 : ℝ), n.2)

/-- The gradient-noise source: its own RNG plus the lazily populated cache of
unit gradient vectors, keyed by integer lattice coordinate (the JS `Map`
keyed by the string `"ix,iy"`). -/
structure SpectralNoise where
  rng : RNG
  gradients : ℤ → ℤ → Option (ℝ × ℝ)

/-- `gradient(ix, iy)`: return the cached vector, or draw an angle in
`[0, 2π)`, cache `(cos angle, sin angle)` and return it. -/
noncomputable def SpectralNoise.gradient (s : SpectralNoise) (ix iy : ℤ) :
    (ℝ × ℝ) × SpectralNoise :=
  match s.gradients ix iy with
  | some g => (g, s)
  | none =>
    let a := s.rng.nextRange 0 (2 * Real.pi)
    ((Real.cos a.1, Real.sin a.1),
      { rng := a.2
        gradients := fun jx jy =>
          if jx = ix ∧ jy = iy then some (Real.cos a.1, Real.sin a.1)
          else s.gradients jx jy })

/-- `dot(ix, iy, x, y) = g · (x - ix, y - iy)`. -/
noncomputable def SpectralNoise.dot (s : SpectralNoise) (ix iy : ℤ) (x y : ℝ) :
    ℝ × SpectralNoise :=
  let g := s.gradient ix iy
  (g.1.1 * (x - ix) + g.1.2 * (y - iy), g.2)

/-- The quintic fade curve `((6t - 15)t + 10) t³`. -/
noncomputable def SpectralNoise.fade (t : ℝ) : ℝ := ((6 * t - 15) * t + 10) * t * t * t

/-- Classic 2D gradient noise: dot products at the four surrounding lattice
corners, bilinearly interpolated with faded weights.  The four `dot` calls
thread the cache state in source order. -/
noncomputable def SpectralNoise.perlin (s : SpectralNoise) (x y : ℝ) : ℝ × SpectralNoise :=
  let x0 : ℤ := ⌊x⌋
  let y0 : ℤ := ⌊y⌋
  let sx := SpectralNoise.fade (x - x0)
  let sy := SpectralNoise.fade (y - y0)
  let d0 := s.dot x0 y0 x y
  let d1 := d0.2.dot (x0 + 1) y0 x y
  let ix0 := d0.1 + sx * (d1.1 - d0.1)
  let d2 := d1.2.dot x0 (y0 + 1) x y
  let d3 := d2.2.dot (x0 + 1) (y0 + 1) x y
  let ix1 := d2.1 + sx * (d3.1 - d2.1)
  (ix0 + sy * (ix1 - ix0), d3.2)

/-- The octave loop of `fbm`: value starts at 0, amplitude at 0.5 scaled by
0.55 per octave, frequency at 0.9 doubled per octave. -/
noncomputable def SpectralNoise.fbmAux (x y : ℝ) :
    ℕ → SpectralNoise → ℝ → ℝ → ℝ × SpectralNoise
  | 0, s, _, _ => (0, s)
  | n + 1, s, amplitude, frequency =>
    let p := s.perlin (x * frequency) (y * frequency)
    let rest := SpectralNoise.fbmAux x y n p.2 (amplitude * 0.55) (frequency * 2)
    (amplitude * p.1 + rest.1, rest.2)

/-- `fbm(x, y, octaves)`. -/
noncomputable def SpectralNoise.fbm (s : SpectralNoise) (x y : ℝ) (octaves : ℕ) :
    ℝ × SpectralNoise :=
  SpectralNoise.fbmAux x y octaves s 0.5 0.9

/-- A geological fault: center, orientation, strength. -/
structure Fault where
  cx : ℝ
  cy : ℝ
  angle : ℝ
  strength : ℝ

/-- `setFaults(count)`: `count` faults sampled in order `cx, cy, angle,
strength`, four RNG draws per fault, threading the shared RNG. -/
noncomputable def setFaults (w h : ℝ) : ℕ → RNG → List Fault × RNG
  | 0, r => ([], r)
  | n + 1, r =>
    let c1 := r.nextRange 0.2 0.8
    let c2 := c1.2.nextRange 0.2 0.8
    let c3 := c2.2.nextRange 0 Real.pi
    let c4 := c3.2.nextRange 0.6 1.3
    let rest := setFaults w h n c4.2
    ({ cx := c1.1 * w, cy := c2.1 * h, angle := c3.1, strength := c4.1 } :: rest.1,
      rest.2)

/-- `energyBoost(x, y)`: sum over faults of
`strength * exp(-|cos(angle)·dx + sin(angle)·dy| * 0.02)`. -/
noncomputable def energyBoost (faults : List Fault) (x y : ℝ) : ℝ :=
  faults.foldl
    (fun v f =>
      v + f.strength *
        Real.exp (-(|Real.cos f.angle * (x - f.cx) + Real.sin f.angle * (y - f.cy)| * 0.02)))
    0

/-- Pointwise write into a grid. -/
noncomputable def gridUpdate (f : ℕ → ℝ) (i : ℕ) (v : ℝ) : ℕ → ℝ :=
  fun j => if j = i then v else f j

/-- The simulation state: the grids, the shared RNG (aliased by the fault
system in the JS code), the noise source, the fault list, the clock and the
last-rupture stamp. -/
structure WaveSimulation where
  width : ℕ
  height : ℕ
  uPrev : ℕ → ℝ
  uCurrent : ℕ → ℝ
  uNext : ℕ → ℝ
  velocity : ℕ → ℝ
  terrain : ℕ → ℝ
  boundaryMask : ℕ → ℝ
  rng : RNG
  noise : SpectralNoise
  faults : List Fault
  time : ℝ
  lastRupture : Option ℝ

/-- Row-major index `y * width + x`. -/
def WaveSimulation.index (sim : WaveSimulation) (x y : ℕ) : ℕ :=
  y * sim.width + x

/-- One cell of the `resetTerrain` loop: recompute terrain and boundary mask
at `(x, y)` and zero the four dynamic grids there, threading the noise
state through `fbm`. -/
noncomputable def WaveSimulation.resetCell (sim : WaveSimulation) (c : ℕ × ℕ) :
    WaveSimulation :=
  let idx := sim.index c.1 c.2
  let nx : ℝ := (c.1 : ℝ) / (sim.width : ℝ)
  let ny : ℝ := (c.2 : ℝ) / (sim.height : ℝ)
  let r := sim.noise.fbm (nx * 6) (ny * 6) 5
  let ridge := Real.exp (-20 * (nx - 0.5) ^ 2)
  let edge := min (min nx ny) (min (1 - nx) (1 - ny))
  { sim with
    terrain := gridUpdate sim.terrain idx (r.1 * 0.4 + ridge * 0.2)
    boundaryMask := gridUpdate sim.boundaryMask idx (edge ^ (0.3 : ℝ))
    uPrev := gridUpdate sim.uPrev idx 0
    uCurrent := gridUpdate sim.uCurrent idx 0
    uNext := gridUpdate sim.uNext idx 0
    velocity := gridUpdate sim.velocity idx 0
    noise := r.2 }

/-- All cells `(x, y)` with `x < w`, `y < h`, in the row-major order of the
nested `resetTerrain` loops. -/
def cellList (w h : ℕ) : List (ℕ × ℕ) :=
  (List.range h).flatMap fun y => (List.range w).map fun x => (x, y)

/-- `resetTerrain()`: sweep every cell, then reset the clock and rupture. -/
noncomputable def WaveSimulation.resetTerrain (sim : WaveSimulation) : WaveSimulation :=
  { (cellList sim.width sim.height).foldl WaveSimulation.resetCell sim with
    time := 0, lastRupture := none }

/-- `setFaultCount(count)` regenerates the fault list from the shared RNG. -/
noncomputable def WaveSimulation.setFaultCount (sim : WaveSimulation) (count : ℕ) :
    WaveSimulation :=
  let fs := setFaults (sim.width : ℝ) (sim.height : ℝ) count sim.rng
  { sim with faults := fs.1, rng := fs.2 }

/-- The simulation constructor: grids zero, RNG seeded 9001 (advanced by the
three initial faults), noise seeded 12345 with an empty gradient cache,
followed by the constructor's `resetTerrain()` call. -/
noncomputable def WaveSimulation.create (width height : ℕ) : WaveSimulation :=
  let fs := setFaults (width : ℝ) (height : ℝ) 3 ⟨9001⟩
  WaveSimulation.resetTerrain
    { width := width
      height := height
      uPrev := fun _ => 0
      uCurrent := fun _ => 0
      uNext := fun _ => 0
      velocity := fun _ => 0
      terrain := fun _ => 0
      boundaryMask := fun _ => 0
      rng := fs.2
      noise := { rng := ⟨12345⟩, gradients := fun _ _ => none }
      faults := fs.1
      time := 0
      lastRupture := none }

/-- One iteration of the `disturb` double loop, at loop counters `(k, l)`
(so offsets `i = -radius + k`, `j = -radius + l`): `none` when the cell is
skipped (border ring or outside the radius), otherwise the written linear
index and the injected energy. -/
noncomputable def disturbContrib (w h : ℕ) (faults : List Fault)
    (x y magnitude radius : ℝ) (k l : ℕ) : Option (ℕ × ℝ) :=
  let i : ℝ := -radius + k
  let j : ℝ := -radius + l
  let px : ℤ := ⌊x + i⌋
  let py : ℤ := ⌊y + j⌋
  if px ≤ 1 ∨ py ≤ 1 ∨ (w : ℤ) - 1 ≤ px ∨ (h : ℤ) - 1 ≤ py then none
  else
    let dist := Real.sqrt (i * i + j * j)
    if radius < dist then none
    else
      some ((py * (w : ℤ) + px).toNat,
        magnitude * (Real.cos (dist / radius * Real.pi) * 0.5 + 0.5) *
          (1 + energyBoost faults (px : ℝ) (py : ℝ)))

/-- Iterations per axis of the `disturb` loop: `j` runs from `-radius` in
unit steps while `j ≤ radius`, i.e. `⌊2·radius⌋ + 1` times. -/
noncomputable def disturbCount (radius : ℝ) : ℕ := (⌊2 * radius⌋).toNat + 1

/-- `disturb(x, y, magnitude)`: radius `max(8, magnitude*1.2)`, outer loop on
`j` (counter `l`), inner on `i` (counter `k`), accumulating energy into
`uCurrent` and stamping `lastRupture` with the current time. -/
noncomputable def WaveSimulation.disturb (sim : WaveSimulation) (x y magnitude : ℝ) :
    WaveSimulation :=
  let radius := max 8 (magnitude * 1.2)
  let n := disturbCount radius
  { sim with
    uCurrent :=
      (List.range n).foldl
        (fun u l =>
          (List.range n).foldl
            (fun u k =>
              match disturbContrib sim.width sim.height sim.faults x y magnitude radius k l with
              | none => u
              | some q => gridUpdate u q.1 (u q.1 + q.2))
            u)
        sim.uCurrent
    lastRupture := some sim.time }

/-- The energy a single `(k, l)` iteration of `disturb` adds at linear index
`p` (zero if that iteration is skipped or writes elsewhere). -/
noncomputable def disturbTerm (w h : ℕ) (faults : List Fault)
    (x y m radius : ℝ) (p : ℕ) (k l : ℕ) : ℝ :=
  match disturbContrib w h faults x y m radius k l with
  | none => 0
  | some q => if q.1 = p then q.2 else 0

/-- The total field a `disturb(x, y, m)` call adds to `uCurrent`, pointwise. -/
noncomputable def WaveSimulation.disturbField (sim : WaveSimulation) (x y m : ℝ) (p : ℕ) : ℝ :=
  ∑ l ∈ Finset.range (disturbCount (max 8 (m * 1.2))),
    ∑ k ∈ Finset.range (disturbCount (max 8 (m * 1.2))),
      disturbTerm sim.width sim.height sim.faults x y m (max 8 (m * 1.2)) p k l

/-- The discrete Laplacian read from the pre-step `uCurrent`. -/
noncomputable def WaveSimulation.laplacian (sim : WaveSimulation) (idx : ℕ) : ℝ :=
  sim.uCurrent (idx - 1) + sim.uCurrent (idx + 1) +
    sim.uCurrent (idx - sim.width) + sim.uCurrent (idx + sim.width) -
    4 * sim.uCurrent idx

/-- The freshly computed displacement of one interior cell:
`dampingFactor * (2u - uPrev) + acceleration * boundary` with
`acceleration = c2·DT²·laplacian·terrainStiffness / DX²`. -/
noncomputable def WaveSimulation.nextValue (sim : WaveSimulation) (c2 df : ℝ) (idx : ℕ) : ℝ :=
  df * (2 * sim.uCurrent idx - sim.uPrev idx) +
    c2 * DT * DT * sim.laplacian idx * (1 + sim.terrain idx * 0.6) / (DX * DX) *
      max (sim.boundaryMask idx) 0.2

/-- Accumulator of the `step` sweep: the buffers being written plus the
running peak and energy. -/
structure StepAcc where
  uNext : ℕ → ℝ
  velocity : ℕ → ℝ
  peak : ℝ
  energy : ℝ

/-- One interior cell of the `step` sweep. -/
noncomputable def WaveSimulation.stepCell (sim : WaveSimulation) (c2 df : ℝ)
    (acc : StepAcc) (c : ℕ × ℕ) : StepAcc :=
  let idx := sim.index c.1 c.2
  let nv := sim.nextValue c2 df idx
  { uNext := gridUpdate acc.uNext idx nv
    velocity := gridUpdate acc.velocity idx ((nv - sim.uPrev idx) / (2 * DT))
    peak := max acc.peak |nv|
    energy := acc.energy + 0.5 * nv * nv }

/-- The interior cells `1 ≤ x ≤ w-2`, `1 ≤ y ≤ h-2`, in the loop order of
`step` (rows outer). -/
def interiorCells (w h : ℕ) : List (ℕ × ℕ) :=
  (List.range' 1 (h - 2)).flatMap fun y => (List.range' 1 (w - 2)).map fun x => (x, y)

/-- `step({waveSpeed, damping})`: sweep the interior, rotate the three
buffers (`uPrev ← uCurrent ← uNext ← old uPrev`), advance time by `DT`, and
return the new state with `peak` and the scaled `energy`. -/
noncomputable def WaveSimulation.step (sim : WaveSimulation) (waveSpeed damping : ℝ) :
    WaveSimulation × ℝ × ℝ :=
  let c2 := waveSpeed * waveSpeed
  let dampingFactor := 1 - damping
  let res :=
    (interiorCells sim.width sim.height).foldl (sim.stepCell c2 dampingFactor)
      { uNext := sim.uNext, velocity := sim.velocity, peak := 0, energy := 0 }
  ({ sim with
      uPrev := sim.uCurrent
      uCurrent := res.uNext
      uNext := sim.uPrev
      velocity := res.velocity
      time := sim.time + DT },
    res.peak, res.energy * 1e-3)

/-- Iterated stepping with fixed parameters. -/
noncomputable def WaveSimulation.stepIter (ws d : ℝ) : ℕ → WaveSimulation → WaveSimulation
  | 0, sim => sim
  | n + 1, sim => WaveSimulation.stepIter ws d n (sim.step ws d).1

/-- A bare simulation state with zero grids and no faults, used to
instantiate universally quantified theorems at concrete inputs. -/
noncomputable def baseSim (w h : ℕ) : WaveSimulation :=
  { width := w
    height := h
    uPrev := fun _ => 0
    uCurrent := fun _ => 0
    uNext := fun _ => 0
    velocity := fun _ => 0
    terrain := fun _ => 0
    boundaryMask := fun _ => 0
    rng := ⟨1⟩
    noise := { rng := ⟨1⟩, gradients := fun _ _ => none }
    faults := []
    time := 0
    lastRupture := none }

/-- A 3×3 state whose single interior cell holds 1 in `uCurrent` only. -/
noncomputable def c3sim : WaveSimulation :=
  { baseSim 3 3 with uCurrent := gridUpdate (fun _ => 0) 4 1 }

/-- The end-to-end scenario: a 200×120 simulation, reset, one disturbance at
(100, 60) of magnitude 5, one step at waveSpeed 2 and damping 0.02. -/
noncomputable def c8sim : WaveSimulation := (WaveSimulation.create 200 120).resetTerrain

/-- The scenario state after the disturbance. -/
noncomputable def c8dist : WaveSimulation := c8sim.disturb 100 60 5

/-- The scenario result of the single step. -/
noncomputable def c8res : WaveSimulation × ℝ × ℝ := c8dist.step 2 0.02

/-- Cache extension: every gradient cached in `s` is cached with the same
value in `t` (the cache only ever grows, and entries are never replaced). -/
def noiseExt (s t : SpectralNoise) : Prop :=
  ∀ ix iy g, s.gradients ix iy = some g → t.gradients ix iy = some g

/-- Cache well-formedness: every cached gradient has both components in
`[-1, 1]` (they are always of the form `(cos a, sin a)`). -/
def noiseWF (s : SpectralNoise) : Prop :=
  ∀ ix iy g, s.gradients ix iy = some g → |g.1| ≤ 1 ∧ |g.2| ≤ 1

/-! ### Basic RNG facts -/

lemma RNG.next_fst_ge (r : RNG) : -(1 : ℚ) / 2147483646 ≤ (r.next).1 := by
  simp only [RNG.next]
  rw [div_le_div_iff (by norm_num) (by norm_num)]
  have h : (0 : ℚ) ≤ ((r.seed * 16807 % 2147483647 : ℕ) : ℚ) := by positivity
  linarith

lemma RNG.next_fst_lt (r : RNG) : (r.next).1 < 1 := by
  simp only [RNG.next]
  rw [div_lt_iff (by norm_num)]
  have h : r.seed * 16807 % 2147483647 < 2147483647 := Nat.mod_lt _ (by norm_num)
  have h2 : ((r.seed * 16807 % 2147483647 : ℕ) : ℚ) < 2147483647 := by exact_mod_cast h
  linarith

/-- C2: `RNG.next()` advances the state by `seed ← seed*16807 mod 2147483647`
and returns `(new_seed - 1) / 2147483646`; two generators with the same seed
produce identical output sequences of any length, and for seed 1337 the first
value is exactly `(1337*16807 mod 2147483647 - 1) / 2147483646`. -/
theorem C2_rng_lehmer (s : ℕ) (h1 : 1 ≤ s) (h2 : s ≤ 2147483646) :
    (RNG.next ⟨s⟩).2.seed = s * 16807 % 2147483647 ∧
    (RNG.next ⟨s⟩).1 = (((s * 16807 % 2147483647 : ℕ) : ℚ) - 1) / 2147483646 ∧
    (∀ r2 : RNG, r2.seed = s → ∀ N, RNG.outputs N ⟨s⟩ = RNG.outputs N r2) ∧
    (s = 1337 →
      (RNG.next ⟨s⟩).1 = (((1337 * 16807 % 2147483647 : ℕ) : ℚ) - 1) / 2147483646) := by
  refine ⟨rfl, rfl, ?_, ?_⟩
  · rintro ⟨s2⟩ h N
    simp only at h
    subst h
    rfl
  · rintro rfl
    rfl

/-- Witness for C2 at seed 1337. -/
theorem C2_rng_lehmer_witness :
    (RNG.next ⟨1337⟩).1 = (((1337 * 16807 % 2147483647 : ℕ) : ℚ) - 1) / 2147483646 :=
  (C2_rng_lehmer 1337 (by norm_num) (by norm_num)).2.2.2 rfl

/-- C9: gradient noise vanishes identically on the integer lattice: both fade
weights are zero and the base corner's offset vector is zero, for every cache
state. -/
theorem C9_perlin_lattice_zero (s : SpectralNoise) (n m : ℤ) :
    (s.perlin (n : ℝ) (m : ℝ)).1 = 0 := by
  simp only [SpectralNoise.perlin, SpectralNoise.dot, SpectralNoise.fade, Int.floor_intCast]
  ring

/-! ### Fault-system facts -/

lemma setFaults_strength_pos (w h : ℝ) :
    ∀ (n : ℕ) (r : RNG), ∀ f ∈ (setFaults w h n r).1, 0 < f.strength := by
  intro n
  induction n with
  | zero => intro r f hf; simp [setFaults] at hf
  | succ n ih =>
    intro r f hf
    simp only [setFaults, List.mem_cons] at hf
    rcases hf with rfl | hf
    · simp only [RNG.nextRange]
      have hge := RNG.next_fst_ge (((r.nextRange 0.2 0.8).2.nextRange 0.2 0.8).2.nextRange 0 Real.pi).2
      have hge' : -(1 : ℝ) / 2147483646 ≤
          ((((((r.nextRange 0.2 0.8).2.nextRange 0.2 0.8).2.nextRange 0 Real.pi).2.next).1 : ℚ) : ℝ) := by
        exact_mod_cast hge
      simp only [RNG.nextRange] at hge' ⊢
      nlinarith [hge']
    · exact ih _ f hf

lemma energyBoost_foldl_ge (x y : ℝ) :
    ∀ (faults : List Fault), (∀ f ∈ faults, 0 ≤ f.strength) → ∀ v : ℝ,
      v ≤ faults.foldl
        (fun v f =>
          v + f.strength *
            Real.exp (-(|Real.cos f.angle * (x - f.cx) + Real.sin f.angle * (y - f.cy)| * 0.02)))
        v := by
  intro faults
  induction faults with
  | nil => intro _ v; simp
  | cons f fs ih =>
    intro hs v
    simp only [List.foldl_cons]
    have h1 : 0 ≤ f.strength *
        Real.exp (-(|Real.cos f.angle * (x - f.cx) + Real.sin f.angle * (y - f.cy)| * 0.02)) := by
      have := hs f (List.mem_cons_self f fs)
      positivity
    calc v ≤ v + f.strength *
          Real.exp (-(|Real.cos f.angle * (x - f.cx) + Real.sin f.angle * (y - f.cy)| * 0.02)) := by
            linarith
      _ ≤ _ := ih (fun g hg => hs g (List.mem_cons_of_mem f hg)) _

lemma energyBoost_nonneg (faults : List Fault)
    (hs : ∀ f ∈ faults, 0 ≤ f.strength) (x y : ℝ) : 0 ≤ energyBoost faults x y :=
  energyBoost_foldl_ge x y faults hs 0

/-- C7: `energyBoost` is nonnegative at every point for every fault list
produced by `setFaults`, and identically zero when the fault count is 0. -/
theorem C7_energyBoost_nonneg (w h : ℝ) (count : ℕ) (r : RNG) (x y : ℝ) :
    0 ≤ energyBoost (setFaults w h count r).1 x y ∧
    (count = 0 → energyBoost (setFaults w h count r).1 x y = 0) := by
  constructor
  · exact energyBoost_nonneg _
      (fun f hf => le_of_lt (setFaults_strength_pos w h count r f hf)) x y
  · rintro rfl
    simp [setFaults, energyBoost]

/-- Witness for C7 at a zero-fault configuration. -/
theorem C7_energyBoost_nonneg_witness :
    0 ≤ energyBoost (setFaults 10 10 0 ⟨1⟩).1 3 4 ∧
    energyBoost (setFaults 10 10 0 ⟨1⟩).1 3 4 = 0 :=
  ⟨(C7_energyBoost_nonneg 10 10 0 ⟨1⟩ 3 4).1,
    (C7_energyBoost_nonneg 10 10 0 ⟨1⟩ 3 4).2 rfl⟩

/-! ### Generic grid-fold lemmas -/

lemma foldl_gridUpdate_of_notMem {α : Type} (f : α → ℕ) (g : α → ℝ) :
    ∀ (L : List α) (u : ℕ → ℝ) (i : ℕ), (∀ c ∈ L, f c ≠ i) →
      (L.foldl (fun u c => gridUpdate u (f c) (g c)) u) i = u i := by
  intro L
  induction L with
  | nil => intro u i _; rfl
  | cons c L ih =>
    intro u i hni
    simp only [List.foldl_cons]
    rw [ih _ i (fun d hd => hni d (List.mem_cons_of_mem c hd))]
    have hic : i ≠ f c := fun h => hni c (List.mem_cons_self c L) h.symm
    simp [gridUpdate, hic]

lemma foldl_gridUpdate_of_mem {α : Type} (f : α → ℕ) (g : α → ℝ) :
    ∀ (L : List α) (u : ℕ → ℝ) (c : α), c ∈ L → (L.map f).Nodup →
      (L.foldl (fun u d => gridUpdate u (f d) (g d)) u) (f c) = g c := by
  intro L
  induction L with
  | nil => intro u c hc _; cases hc
  | cons d L ih =>
    intro u c hc hnd
    simp only [List.map_cons, List.nodup_cons] at hnd
    simp only [List.foldl_cons]
    by_cases hcL : c ∈ L
    · exact ih _ c hcL hnd.2
    · have hcd : c = d := by
        rcases List.mem_cons.mp hc with h | h
        · exact h
        · exact absurd h hcL
      subst hcd
      rw [foldl_gridUpdate_of_notMem f g L _ (f c) ?_]
      · simp [gridUpdate]
      · intro e he hfe
        exact hnd.1 (hfe ▸ List.mem_map_of_mem f he)

/-! ### Row-major index facts -/

lemma index_inj {w x1 y1 x2 y2 : ℕ} (h1 : x1 < w) (h2 : x2 < w)
    (h : y1 * w + x1 = y2 * w + x2) : x1 = x2 ∧ y1 = y2 := by
  have hx : x1 = x2 := by
    have e1 : (y1 * w + x1) % w = x1 := by
      rw [Nat.mul_comm y1 w, Nat.mul_add_mod, Nat.mod_eq_of_lt h1]
    have e2 : (y2 * w + x2) % w = x2 := by
      rw [Nat.mul_comm y2 w, Nat.mul_add_mod, Nat.mod_eq_of_lt h2]
    rw [← e1, ← e2, h]
  refine ⟨hx, ?_⟩
  subst hx
  have hw : 0 < w := Nat.pos_of_ne_zero (fun hw0 => by omega)
  have := Nat.add_right_cancel h
  exact Nat.eq_of_mul_eq_mul_right hw this

lemma nodup_rowMajor (w : ℕ) :
    ∀ (rows cols : List ℕ), rows.Nodup → cols.Nodup → (∀ x ∈ cols, x < w) →
      ((rows.flatMap fun y => cols.map fun x => y * w + x)).Nodup := by
  intro rows
  induction rows with
  | nil => intro cols _ _ _; simp
  | cons y rows ih =>
    intro cols hr hc hcw
    rw [List.nodup_cons] at hr
    simp only [List.flatMap_cons]
    rw [List.nodup_append]
    refine ⟨?_, ih cols hr.2 hc hcw, ?_⟩
    · exact hc.map (fun a b hab => Nat.add_left_cancel hab)
    · intro a ha hb
      obtain ⟨x, hx, rfl⟩ := List.mem_map.mp ha
      obtain ⟨y', hy', ha'⟩ := List.mem_flatMap.mp hb
      obtain ⟨x', hx', heq⟩ := List.mem_map.mp ha'
      obtain ⟨-, hyy⟩ := index_inj (hcw x' hx') (hcw x hx) heq
      exact hr.1 (hyy ▸ hy')

lemma mem_interiorCells {w h : ℕ} {c : ℕ × ℕ} :
    c ∈ interiorCells w h ↔ 1 ≤ c.1 ∧ c.1 ≤ w - 2 ∧ 1 ≤ c.2 ∧ c.2 ≤ h - 2 := by
  rcases c with ⟨x, y⟩
  simp only [interiorCells, List.mem_flatMap, List.mem_map, List.mem_range'_1]
  constructor
  · rintro ⟨y', hy', x', hx', heq⟩
    rw [Prod.mk.injEq] at heq
    obtain ⟨rfl, rfl⟩ := heq
    omega
  · rintro ⟨hx1, hx2, hy1, hy2⟩
    exact ⟨y, by omega, x, by omega, rfl⟩

lemma interior_map_index_nodup (w h : ℕ) :
    ((interiorCells w h).map fun c : ℕ × ℕ => c.2 * w + c.1).Nodup := by
  have heq : ((interiorCells w h).map fun c : ℕ × ℕ => c.2 * w + c.1) =
      (List.range' 1 (h - 2)).flatMap fun y => (List.range' 1 (w - 2)).map fun x => y * w + x := by
    simp only [interiorCells, List.map_flatMap, List.map_map]
    rfl
  rw [heq]
  apply nodup_rowMajor
  · exact List.nodup_range' _ _
  · exact List.nodup_range' _ _
  · intro x hx
    rw [List.mem_range'_1] at hx
    omega

/-! ### Projections of `step` -/

lemma step_fst_uCurrent (sim : WaveSimulation) (ws d : ℝ) :
    (sim.step ws d).1.uCurrent =
      ((interiorCells sim.width sim.height).foldl (sim.stepCell (ws * ws) (1 - d))
        { uNext := sim.uNext, velocity := sim.velocity, peak := 0, energy := 0 }).uNext := rfl

lemma step_peak_eq (sim : WaveSimulation) (ws d : ℝ) :
    (sim.step ws d).2.1 =
      ((interiorCells sim.width sim.height).foldl (sim.stepCell (ws * ws) (1 - d))
        { uNext := sim.uNext, velocity := sim.velocity, peak := 0, energy := 0 }).peak := rfl

lemma step_energy_eq (sim : WaveSimulation) (ws d : ℝ) :
    (sim.step ws d).2.2 =
      ((interiorCells sim.width sim.height).foldl (sim.stepCell (ws * ws) (1 - d))
        { uNext := sim.uNext, velocity := sim.velocity, peak := 0, energy := 0 }).energy *
        1e-3 := rfl

lemma stepFold_uNext (sim : WaveSimulation) (c2 df : ℝ) :
    ∀ (L : List (ℕ × ℕ)) (acc : StepAcc),
      (L.foldl (sim.stepCell c2 df) acc).uNext =
        L.foldl
          (fun u c => gridUpdate u (sim.index c.1 c.2) (sim.nextValue c2 df (sim.index c.1 c.2)))
          acc.uNext := by
  intro L
  induction L with
  | nil => intro acc; rfl
  | cons c L ih =>
    intro acc
    simp only [List.foldl_cons]
    rw [ih]
    rfl

lemma stepFold_peak (sim : WaveSimulation) (c2 df : ℝ) :
    ∀ (L : List (ℕ × ℕ)) (acc : StepAcc),
      (L.foldl (sim.stepCell c2 df) acc).peak =
        L.foldl (fun p c => max p |sim.nextValue c2 df (sim.index c.1 c.2)|) acc.peak := by
  intro L
  induction L with
  | nil => intro acc; rfl
  | cons c L ih =>
    intro acc
    simp only [List.foldl_cons]
    rw [ih]
    rfl

lemma stepFold_energy (sim : WaveSimulation) (c2 df : ℝ) :
    ∀ (L : List (ℕ × ℕ)) (acc : StepAcc),
      (L.foldl (sim.stepCell c2 df) acc).energy =
        L.foldl
          (fun e c =>
            e + 0.5 * sim.nextValue c2 df (sim.index c.1 c.2) *
              sim.nextValue c2 df (sim.index c.1 c.2))
          acc.energy := by
  intro L
  induction L with
  | nil => intro acc; rfl
  | cons c L ih =>
    intro acc
    simp only [List.foldl_cons]
    rw [ih]
    rfl

lemma step_uCurrent_interior (sim : WaveSimulation) (ws d : ℝ) {x y : ℕ}
    (hx1 : 1 ≤ x) (hx2 : x ≤ sim.width - 2) (hy1 : 1 ≤ y) (hy2 : y ≤ sim.height - 2) :
    (sim.step ws d).1.uCurrent (sim.index x y) =
      sim.nextValue (ws * ws) (1 - d) (sim.index x y) := by
  rw [step_fst_uCurrent, stepFold_uNext]
  have hmem : (x, y) ∈ interiorCells sim.width sim.height :=
    mem_interiorCells.mpr ⟨hx1, hx2, hy1, hy2⟩
  exact foldl_gridUpdate_of_mem (fun c : ℕ × ℕ => sim.index c.1 c.2)
    (fun c : ℕ × ℕ => sim.nextValue (ws * ws) (1 - d) (sim.index c.1 c.2))
    (interiorCells sim.width sim.height) sim.uNext (x, y) hmem
    (interior_map_index_nodup sim.width sim.height)

lemma step_uCurrent_frame (sim : WaveSimulation) (ws d : ℝ) {x y : ℕ}
    (hx : x < sim.width) (hy : y < sim.height)
    (hni : ¬(1 ≤ x ∧ x ≤ sim.width - 2 ∧ 1 ≤ y ∧ y ≤ sim.height - 2)) :
    (sim.step ws d).1.uCurrent (sim.index x y) = sim.uNext (sim.index x y) := by
  rw [step_fst_uCurrent, stepFold_uNext]
  apply foldl_gridUpdate_of_notMem
  rintro ⟨a, b⟩ hab heq
  have hm := mem_interiorCells.mp hab
  simp only at hm
  have haw : a < sim.width := by omega
  have := index_inj haw hx heq
  omega

/-- C1: each freshly computed interior value (stored into the `uNext` buffer,
which the rotation turns into the new `uCurrent`) equals
`(1-damping)·(2u - uPrev) + waveSpeed²·DT²·laplacian·(1+0.6·terrain)·max(mask,0.2)/DX²`,
all read from the pre-step buffers; cells outside the interior region are not
written, so the new `uCurrent` holds the old scratch-buffer value there. -/
theorem C1_step_formula (sim : WaveSimulation) (waveSpeed damping : ℝ) (x y : ℕ)
    (hx : x < sim.width) (hy : y < sim.height) :
    ((1 ≤ x ∧ x ≤ sim.width - 2 ∧ 1 ≤ y ∧ y ≤ sim.height - 2) →
      (sim.step waveSpeed damping).1.uCurrent (sim.index x y) =
        (1 - damping) *
            (2 * sim.uCurrent (sim.index x y) - sim.uPrev (sim.index x y)) +
          waveSpeed ^ 2 * DT ^ 2 *
            (sim.uCurrent (sim.index x y - 1) + sim.uCurrent (sim.index x y + 1) +
              sim.uCurrent (sim.index x y - sim.width) +
              sim.uCurrent (sim.index x y + sim.width) -
              4 * sim.uCurrent (sim.index x y)) *
            (1 + 0.6 * sim.terrain (sim.index x y)) *
            max (sim.boundaryMask (sim.index x y)) 0.2 / DX ^ 2) ∧
    (¬(1 ≤ x ∧ x ≤ sim.width - 2 ∧ 1 ≤ y ∧ y ≤ sim.height - 2) →
      (sim.step waveSpeed damping).1.uCurrent (sim.index x y) =
        sim.uNext (sim.index x y)) := by
  constructor
  · rintro ⟨hx1, hx2, hy1, hy2⟩
    rw [step_uCurrent_interior sim _ _ hx1 hx2 hy1 hy2]
    simp only [WaveSimulation.nextValue, WaveSimulation.laplacian]
    ring
  · intro hni
    exact step_uCurrent_frame sim _ _ hx hy hni

/-- Witness for C1: the interior-cell formula instantiated on a concrete
4×4 state. -/
theorem C1_step_formula_witness :
    ((baseSim 4 4).step 2 0.1).1.uCurrent ((baseSim 4 4).index 1 1) =
      (1 - 0.1) *
          (2 * (baseSim 4 4).uCurrent ((baseSim 4 4).index 1 1) -
            (baseSim 4 4).uPrev ((baseSim 4 4).index 1 1)) +
        2 ^ 2 * DT ^ 2 *
          ((baseSim 4 4).uCurrent ((baseSim 4 4).index 1 1 - 1) +
            (baseSim 4 4).uCurrent ((baseSim 4 4).index 1 1 + 1) +
            (baseSim 4 4).uCurrent ((baseSim 4 4).index 1 1 - (baseSim 4 4).width) +
            (baseSim 4 4).uCurrent ((baseSim 4 4).index 1 1 + (baseSim 4 4).width) -
            4 * (baseSim 4 4).uCurrent ((baseSim 4 4).index 1 1)) *
          (1 + 0.6 * (baseSim 4 4).terrain ((baseSim 4 4).index 1 1)) *
          max ((baseSim 4 4).boundaryMask ((baseSim 4 4).index 1 1)) 0.2 / DX ^ 2 :=
  (C1_step_formula (baseSim 4 4) 2 0.1 1 1 (by norm_num [baseSim])
    (by norm_num [baseSim])).1 (by norm_num [baseSim])

/-! ### Zero-parameter steps (C3) -/

lemma step00_preserves (s : WaveSimulation) (U : ℕ → ℝ)
    (hp : s.uPrev = U) (hc : s.uCurrent = U) (hn : s.uNext = U) :
    (s.step 0 0).1.uPrev = U ∧ (s.step 0 0).1.uCurrent = U ∧ (s.step 0 0).1.uNext = U := by
  refine ⟨hc, ?_, hp⟩
  funext i
  rw [step_fst_uCurrent, stepFold_uNext]
  by_cases hmem : ∃ c ∈ interiorCells s.width s.height, s.index c.1 c.2 = i
  · obtain ⟨c, hcm, hci⟩ := hmem
    rw [← hci]
    rw [foldl_gridUpdate_of_mem (fun c : ℕ × ℕ => s.index c.1 c.2)
      (fun c : ℕ × ℕ => s.nextValue (0 * 0) (1 - 0) (s.index c.1 c.2)) _ _ c hcm
      (interior_map_index_nodup s.width s.height)]
    simp only [WaveSimulation.nextValue, WaveSimulation.laplacian, hp, hc]
    ring
  · push_neg at hmem
    rw [foldl_gridUpdate_of_notMem _ _ _ _ _ (fun c hcm => hmem c hcm)]
    exact congrFun hn i

/-- C3 (amended): with `damping = 0` and `waveSpeed = 0`, starting from any
state whose three displacement buffers agree (as they do right after a
reset), every number of repeated `step` calls leaves `uCurrent` identical;
the update itself degenerates to the pure `2*u_current - u_prev`
recurrence, which is the identity exactly on such states. -/
theorem C3_zero_params_fixed (sim : WaveSimulation)
    (hp : sim.uPrev = sim.uCurrent) (hn : sim.uNext = sim.uCurrent) :
    ∀ n : ℕ, (WaveSimulation.stepIter 0 0 n sim).uCurrent = sim.uCurrent := by
  have key : ∀ (n : ℕ) (s : WaveSimulation),
      s.uPrev = sim.uCurrent → s.uCurrent = sim.uCurrent → s.uNext = sim.uCurrent →
      (WaveSimulation.stepIter 0 0 n s).uCurrent = sim.uCurrent := by
    intro n
    induction n with
    | zero => intro s _ h _; exact h
    | succ n ih =>
      intro s h1 h2 h3
      obtain ⟨g1, g2, g3⟩ := step00_preserves s sim.uCurrent h1 h2 h3
      exact ih (s.step 0 0).1 g1 g2 g3
  intro n
  exact key n sim hp rfl hn

/-- Witness for the amended C3 on the zero 3×3 state, two steps. -/
theorem C3_zero_params_fixed_witness :
    (WaveSimulation.stepIter 0 0 2 (baseSim 3 3)).uCurrent = (baseSim 3 3).uCurrent :=
  C3_zero_params_fixed (baseSim 3 3) rfl rfl 2

/-- Counterexample to C3 as stated: on a 3×3 grid whose single interior cell
holds 1 in `uCurrent` (and 0 in `uPrev`), one zero-damping zero-speed step
changes that cell to 2, so `uCurrent` is not left identical for every
starting grid state. -/
theorem C3_counterexample :
    (c3sim.step 0 0).1.uCurrent (c3sim.index 1 1) = 2 ∧
    c3sim.uCurrent (c3sim.index 1 1) = 1 ∧
    (c3sim.step 0 0).1.uCurrent ≠ c3sim.uCurrent := by
  have h1 : (c3sim.step 0 0).1.uCurrent (c3sim.index 1 1) = 2 := by
    rw [step_uCurrent_interior c3sim 0 0 (by norm_num) (by norm_num [c3sim, baseSim])
      (by norm_num) (by norm_num [c3sim, baseSim])]
    simp only [WaveSimulation.nextValue, WaveSimulation.laplacian, c3sim, baseSim,
      WaveSimulation.index, gridUpdate]
    norm_num
  have h2 : c3sim.uCurrent (c3sim.index 1 1) = 1 := by
    simp [c3sim, baseSim, WaveSimulation.index, gridUpdate]
  refine ⟨h1, h2, fun heq => ?_⟩
  rw [heq, h2] at h1
  norm_num at h1

/-! ### Pointwise characterization of `disturb` -/

lemma disturb_uCurrent_def (sim : WaveSimulation) (x y m : ℝ) :
    (sim.disturb x y m).uCurrent =
      (List.range (disturbCount (max 8 (m * 1.2)))).foldl
        (fun u l =>
          (List.range (disturbCount (max 8 (m * 1.2)))).foldl
            (fun u k =>
              match disturbContrib sim.width sim.height sim.faults x y m (max 8 (m * 1.2)) k l with
              | none => u
              | some q => gridUpdate u q.1 (u q.1 + q.2))
            u)
        sim.uCurrent := rfl

lemma disturbRow_apply (w h : ℕ) (faults : List Fault) (x y m radius : ℝ) (l : ℕ) :
    ∀ (ks : List ℕ) (u : ℕ → ℝ) (p : ℕ),
      (ks.foldl
        (fun u k =>
          match disturbContrib w h faults x y m radius k l with
          | none => u
          | some q => gridUpdate u q.1 (u q.1 + q.2))
        u) p =
      u p + (ks.map fun k => disturbTerm w h faults x y m radius p k l).sum := by
  intro ks
  induction ks with
  | nil => intro u p; simp
  | cons k ks ih =>
    intro u p
    simp only [List.foldl_cons, List.map_cons, List.sum_cons]
    rw [ih]
    have happ :
        (match disturbContrib w h faults x y m radius k l with
          | none => u
          | some q => gridUpdate u q.1 (u q.1 + q.2)) p =
        u p + disturbTerm w h faults x y m radius p k l := by
      unfold disturbTerm
      cases hc : disturbContrib w h faults x y m radius k l with
      | none => simp
      | some q =>
        simp only [gridUpdate]
        by_cases hqp : p = q.1
        · subst hqp
          simp
        · have : ¬q.1 = p := fun hh => hqp hh.symm
          simp [hqp, this]
    rw [happ]
    ring

lemma disturbNested_apply (w h : ℕ) (faults : List Fault) (x y m radius : ℝ) (n : ℕ) :
    ∀ (ls : List ℕ) (u : ℕ → ℝ) (p : ℕ),
      (ls.foldl
        (fun u l =>
          (List.range n).foldl
            (fun u k =>
              match disturbContrib w h faults x y m radius k l with
              | none => u
              | some q => gridUpdate u q.1 (u q.1 + q.2))
            u)
        u) p =
      u p +
        (ls.map fun l =>
          ((List.range n).map fun k => disturbTerm w h faults x y m radius p k l).sum).sum := by
  intro ls
  induction ls with
  | nil => intro u p; simp
  | cons l ls ih =>
    intro u p
    simp only [List.foldl_cons, List.map_cons, List.sum_cons]
    rw [ih, disturbRow_apply]
    ring

lemma list_range_map_sum (f : ℕ → ℝ) : ∀ n : ℕ,
    ((List.range n).map f).sum = ∑ k ∈ Finset.range n, f k := by
  intro n
  induction n with
  | zero => simp
  | succ n ih =>
    rw [List.range_succ, List.map_append, List.sum_append, Finset.sum_range_succ, ih]
    simp

lemma disturb_uCurrent_apply (sim : WaveSimulation) (x y m : ℝ) (p : ℕ) :
    (sim.disturb x y m).uCurrent p = sim.uCurrent p + sim.disturbField x y m p := by
  rw [disturb_uCurrent_def, disturbNested_apply, WaveSimulation.disturbField]
  have hsum :
      ((List.range (disturbCount (max 8 (m * 1.2)))).map fun l =>
          ((List.range (disturbCount (max 8 (m * 1.2)))).map fun k =>
            disturbTerm sim.width sim.height sim.faults x y m (max 8 (m * 1.2)) p k l).sum).sum =
      ∑ l ∈ Finset.range (disturbCount (max 8 (m * 1.2))),
        ∑ k ∈ Finset.range (disturbCount (max 8 (m * 1.2))),
          disturbTerm sim.width sim.height sim.faults x y m (max 8 (m * 1.2)) p k l := by
    rw [list_range_map_sum]
    apply Finset.sum_congr rfl
    intro l _
    rw [list_range_map_sum]
  rw [hsum]

/-! ### Sign of the injected energy -/

lemma energy_formula_nonneg (faults : List Fault)
    (hstr : ∀ f ∈ faults, 0 ≤ f.strength) (m θ b1 b2 : ℝ) (hm : 0 ≤ m) :
    0 ≤ m * (Real.cos θ * 0.5 + 0.5) * (1 + energyBoost faults b1 b2) := by
  have h1 := Real.neg_one_le_cos θ
  have h2 := energyBoost_nonneg faults hstr b1 b2
  have h3 : 0 ≤ Real.cos θ * 0.5 + 0.5 := by linarith
  have h4 : 0 ≤ 1 + energyBoost faults b1 b2 := by linarith
  positivity

lemma disturbTerm_nonneg (w h : ℕ) (faults : List Fault) (x y m radius : ℝ) (p k l : ℕ)
    (hm : 0 ≤ m) (hstr : ∀ f ∈ faults, 0 ≤ f.strength) :
    0 ≤ disturbTerm w h faults x y m radius p k l := by
  unfold disturbTerm
  split
  · exact le_rfl
  · rename_i q heq
    split
    · simp only [disturbContrib] at heq
      split at heq
      · simp at heq
      · split at heq
        · simp at heq
        · rw [Option.some.injEq] at heq
          subst heq
          exact energy_formula_nonneg faults hstr m _ _ _ hm
    · exact le_rfl

lemma disturbField_nonneg (sim : WaveSimulation) (x y m : ℝ) (p : ℕ)
    (hm : 0 ≤ m) (hstr : ∀ f ∈ sim.faults, 0 ≤ f.strength) :
    0 ≤ sim.disturbField x y m p := by
  apply Finset.sum_nonneg
  intro l _
  apply Finset.sum_nonneg
  intro k _
  exact disturbTerm_nonneg _ _ _ _ _ _ _ _ _ _ hm hstr

/-- C10: a `disturb` call with nonnegative magnitude and a fault list
produced by `setFaults` never decreases any cell of `uCurrent`: every written
cell receives the increment `magnitude · falloff · (1 + energyBoost)`, which
is nonnegative since the raised-cosine falloff lies in `[0, 1]` and the
boost is a sum of positive-strength exponential terms. -/
theorem C10_disturb_monotone (sim : WaveSimulation) (wf hf : ℝ) (count : ℕ) (r : RNG)
    (hfl : sim.faults = (setFaults wf hf count r).1) (x y m : ℝ) (hm : 0 ≤ m) :
    ∀ p, sim.uCurrent p ≤ (sim.disturb x y m).uCurrent p := by
  intro p
  rw [disturb_uCurrent_apply]
  have h0 : 0 ≤ sim.disturbField x y m p := by
    apply disturbField_nonneg sim x y m p hm
    rw [hfl]
    exact fun f hf2 => le_of_lt (setFaults_strength_pos _ _ _ _ f hf2)
  linarith

/-- Witness for C10 on a concrete 10×10 zero state with the empty
`setFaults 0` configuration. -/
theorem C10_disturb_monotone_witness :
    (baseSim 10 10).uCurrent 0 ≤ ((baseSim 10 10).disturb 5 5 1).uCurrent 0 :=
  C10_disturb_monotone (baseSim 10 10) 10 10 0 ⟨1⟩ rfl 5 5 1 (by norm_num) 0

/-! ### Which cells a `disturb` iteration can write -/

lemma disturbContrib_some {w h : ℕ} {faults : List Fault} {x y m radius : ℝ}
    {k l : ℕ} {q : ℕ × ℝ}
    (heq : disturbContrib w h faults x y m radius k l = some q) :
    2 ≤ ⌊x + (-radius + (k : ℝ))⌋ ∧ ⌊x + (-radius + (k : ℝ))⌋ ≤ (w : ℤ) - 2 ∧
    2 ≤ ⌊y + (-radius + (l : ℝ))⌋ ∧ ⌊y + (-radius + (l : ℝ))⌋ ≤ (h : ℤ) - 2 ∧
    q.1 = (⌊y + (-radius + (l : ℝ))⌋ * (w : ℤ) + ⌊x + (-radius + (k : ℝ))⌋).toNat := by
  simp only [disturbContrib] at heq
  split at heq
  · simp at heq
  · rename_i hcond
    split at heq
    · simp at heq
    · rw [Option.some.injEq] at heq
      push_neg at hcond
      obtain ⟨h1, h2, h3, h4⟩ := hcond
      refine ⟨by omega, by omega, by omega, by omega, ?_⟩
      rw [← heq]

lemma index_inj_int {w : ℕ} {a b : ℤ} {x2 y2 : ℕ} (ha0 : 0 ≤ a) (hb0 : 0 ≤ b)
    (haw : a < (w : ℤ)) (hx2 : x2 < w) (h : b * w + a = (y2 : ℤ) * w + x2) :
    a = (x2 : ℤ) ∧ b = (y2 : ℤ) := by
  have ha' : ((a.toNat : ℕ) : ℤ) = a := Int.toNat_of_nonneg ha0
  have hb' : ((b.toNat : ℕ) : ℤ) = b := Int.toNat_of_nonneg hb0
  have hnat : b.toNat * w + a.toNat = y2 * w + x2 := by
    have hcast : ((b.toNat * w + a.toNat : ℕ) : ℤ) = ((y2 * w + x2 : ℕ) : ℤ) := by
      push_cast
      rw [ha', hb']
      exact h
    exact_mod_cast hcast
  have haw' : a.toNat < w := by omega
  obtain ⟨hx, hy⟩ := index_inj haw' hx2 hnat
  omega

/-- C4 (amended): `disturb` writes only cells `(px, py)` with
`2 ≤ px ≤ width-2` and `2 ≤ py ≤ height-2`; every cell with `px ≤ 1`,
`py ≤ 1`, `px ≥ width-1` or `py ≥ height-1` is skipped and retains its
prior `uCurrent` value (the skipped band is two cells deep on the low
sides but only one cell deep on the high sides). -/
theorem C4_disturb_frame (sim : WaveSimulation) (x y m : ℝ) (px py : ℕ)
    (hpx : px < sim.width) (hpy : py < sim.height)
    (hring : px ≤ 1 ∨ py ≤ 1 ∨ sim.width - 1 ≤ px ∨ sim.height - 1 ≤ py) :
    (sim.disturb x y m).uCurrent (sim.index px py) = sim.uCurrent (sim.index px py) := by
  rw [disturb_uCurrent_apply]
  have hz : sim.disturbField x y m (sim.index px py) = 0 := by
    apply Finset.sum_eq_zero
    intro l _
    apply Finset.sum_eq_zero
    intro k _
    unfold disturbTerm
    split
    · rfl
    · rename_i q heq
      split
      · rename_i hq1
        exfalso
        obtain ⟨ha, hb, hc, hd, hq⟩ := disturbContrib_some heq
        rw [hq] at hq1
        set A := ⌊x + (-(max 8 (m * 1.2)) + (k : ℝ))⌋ with hA
        set B := ⌊y + (-(max 8 (m * 1.2)) + (l : ℝ))⌋ with hB
        have hBw : (0 : ℤ) ≤ B * (sim.width : ℤ) :=
          mul_nonneg (by omega) (by positivity)
        have hval : (0 : ℤ) ≤ B * (sim.width : ℤ) + A := by omega
        have heqz : B * (sim.width : ℤ) + A = (py : ℤ) * (sim.width : ℤ) + (px : ℤ) := by
          have h1 : ((B * (sim.width : ℤ) + A).toNat : ℤ) = B * (sim.width : ℤ) + A :=
            Int.toNat_of_nonneg hval
          rw [hq1] at h1
          rw [← h1]
          simp only [WaveSimulation.index]
          push_cast
          ring
        obtain ⟨hax, hby⟩ := index_inj_int (by omega) (by omega) (by omega) hpx heqz
        omega
      · rfl
  rw [hz]
  ring

/-- Witness for the amended C4 at a border cell of a 10×10 grid. -/
theorem C4_disturb_frame_witness :
    ((baseSim 10 10).disturb 5 5 1).uCurrent ((baseSim 10 10).index 0 5) =
      (baseSim 10 10).uCurrent ((baseSim 10 10).index 0 5) :=
  C4_disturb_frame (baseSim 10 10) 5 5 1 0 5 (by norm_num [baseSim])
    (by norm_num [baseSim]) (Or.inl (by norm_num))

/-! ### The center cell of an integer-coordinate `disturb` -/

lemma disturbContrib_center (w h : ℕ) (faults : List Fault) (x y : ℕ) (m : ℝ)
    (hx2 : 2 ≤ x) (hxw : x + 2 ≤ w) (hy2 : 2 ≤ y) (hyh : y + 2 ≤ h) :
    disturbContrib w h faults (x : ℝ) (y : ℝ) m 8 8 8 =
      some (y * w + x, m * (1 + energyBoost faults (x : ℝ) (y : ℝ))) := by
  have hzero : (-(8 : ℝ) + ((8 : ℕ) : ℝ)) = 0 := by norm_num
  simp only [disturbContrib, hzero, add_zero]
  rw [Int.floor_natCast, Int.floor_natCast]
  rw [if_neg (by omega : ¬((x : ℤ) ≤ 1 ∨ (y : ℤ) ≤ 1 ∨ (w : ℤ) - 1 ≤ (x : ℤ) ∨ (h : ℤ) - 1 ≤ (y : ℤ)))]
  have hd : Real.sqrt ((0 : ℝ) * 0 + 0 * 0) = 0 := by
    norm_num
  rw [hd, if_neg (by norm_num : ¬(8 : ℝ) < 0)]
  have hidx : ((y : ℤ) * (w : ℤ) + (x : ℤ)).toNat = y * w + x := by
    have hcast : ((y : ℤ) * (w : ℤ) + (x : ℤ)) = ((y * w + x : ℕ) : ℤ) := by
      push_cast
      ring
    rw [hcast, Int.toNat_natCast]
  rw [hidx]
  have hcos : (0 : ℝ) / 8 * Real.pi = 0 := by norm_num
  rw [hcos, Real.cos_zero]
  norm_num

lemma disturbTerm_offcenter (w h : ℕ) (faults : List Fault) (x y : ℕ) (m : ℝ) (k l : ℕ)
    (hxw : x + 2 ≤ w) (hne : ¬(k = 8 ∧ l = 8)) :
    disturbTerm w h faults (x : ℝ) (y : ℝ) m 8 (y * w + x) k l = 0 := by
  unfold disturbTerm
  split
  · rfl
  · rename_i q heq
    split
    · rename_i hq1
      exfalso
      obtain ⟨ha, hb, hc, hd, hq⟩ := disturbContrib_some heq
      have hfx : ⌊(x : ℝ) + (-(8 : ℝ) + (k : ℝ))⌋ = (x : ℤ) - 8 + k := by
        have hcast : ((x : ℝ) + (-(8 : ℝ) + (k : ℝ))) = (((x : ℤ) - 8 + k : ℤ) : ℝ) := by
          push_cast
          ring
        rw [hcast, Int.floor_intCast]
      have hfy : ⌊(y : ℝ) + (-(8 : ℝ) + (l : ℝ))⌋ = (y : ℤ) - 8 + l := by
        have hcast : ((y : ℝ) + (-(8 : ℝ) + (l : ℝ))) = (((y : ℤ) - 8 + l : ℤ) : ℝ) := by
          push_cast
          ring
        rw [hcast, Int.floor_intCast]
      rw [hfx] at ha hb hq
      rw [hfy] at hc hd hq
      rw [hq] at hq1
      have hBw : (0 : ℤ) ≤ ((y : ℤ) - 8 + l) * (w : ℤ) :=
        mul_nonneg (by omega) (by positivity)
      have hval : (0 : ℤ) ≤ ((y : ℤ) - 8 + l) * (w : ℤ) + ((x : ℤ) - 8 + k) := by omega
      have heqz : ((y : ℤ) - 8 + l) * (w : ℤ) + ((x : ℤ) - 8 + k) =
          (y : ℤ) * (w : ℤ) + (x : ℤ) := by
        have h1 : ((((y : ℤ) - 8 + l) * (w : ℤ) + ((x : ℤ) - 8 + k)).toNat : ℤ) =
            ((y : ℤ) - 8 + l) * (w : ℤ) + ((x : ℤ) - 8 + k) :=
          Int.toNat_of_nonneg hval
        rw [hq1] at h1
        rw [← h1]
        push_cast
        ring
      have hxlt : x < w := by omega
      obtain ⟨hax, hby⟩ := index_inj_int (by omega) (by omega) (by omega) hxlt heqz
      omega
    · rfl

lemma disturb_center (sim : WaveSimulation) (x y : ℕ) (m : ℝ)
    (hm8 : m * 1.2 ≤ 8) (hx2 : 2 ≤ x) (hxw : x + 2 ≤ sim.width) (hy2 : 2 ≤ y)
    (hyh : y + 2 ≤ sim.height) :
    (sim.disturb (x : ℝ) (y : ℝ) m).uCurrent (sim.index x y) =
      sim.uCurrent (sim.index x y) +
        m * (1 + energyBoost sim.faults (x : ℝ) (y : ℝ)) := by
  rw [disturb_uCurrent_apply]
  have hrad : max (8 : ℝ) (m * 1.2) = 8 := max_eq_left hm8
  have hcnt : disturbCount (max 8 (m * 1.2)) = 17 := by
    rw [hrad]
    unfold disturbCount
    have h16 : (2 * (8 : ℝ)) = ((16 : ℤ) : ℝ) := by norm_num
    rw [h16, Int.floor_intCast]
    rfl
  have hidx : sim.index x y = y * sim.width + x := rfl
  have hfield : sim.disturbField (x : ℝ) (y : ℝ) m (sim.index x y) =
      m * (1 + energyBoost sim.faults (x : ℝ) (y : ℝ)) := by
    unfold WaveSimulation.disturbField
    rw [hcnt]
    simp only [hrad]
    rw [Finset.sum_eq_single_of_mem 8 (by norm_num : (8 : ℕ) ∈ Finset.range 17)]
    · rw [Finset.sum_eq_single_of_mem 8 (by norm_num : (8 : ℕ) ∈ Finset.range 17)]
      · unfold disturbTerm
        rw [disturbContrib_center sim.width sim.height sim.faults x y m hx2 hxw hy2 hyh]
        simp [hidx]
      · intro k _ hk8
        rw [hidx]
        exact disturbTerm_offcenter sim.width sim.height sim.faults x y m k 8 hxw
          (fun hkl => hk8 hkl.1)
    · intro l _ hl8
      apply Finset.sum_eq_zero
      intro k _
      rw [hidx]
      exact disturbTerm_offcenter sim.width sim.height sim.faults x y m k l hxw
        (fun hkl => hl8 hkl.2)
  rw [hfield]

/-- Counterexample to C4 as stated: on a 20×20 grid, `disturb(18, 10, 5)`
writes the cell `(18, 10)` even though `18 = width - 2` lies in the claimed
two-deep skipped ring, raising it from 0 to 5. -/
theorem C4_counterexample :
    ((baseSim 20 20).disturb ((18 : ℕ) : ℝ) ((10 : ℕ) : ℝ) 5).uCurrent
        ((baseSim 20 20).index 18 10) = 5 ∧
    (baseSim 20 20).uCurrent ((baseSim 20 20).index 18 10) = 0 ∧
    (baseSim 20 20).width - 2 ≤ 18 := by
  refine ⟨?_, rfl, by norm_num [baseSim]⟩
  have h := disturb_center (baseSim 20 20) 18 10 5 (by norm_num) (by norm_num)
    (by norm_num [baseSim]) (by norm_num) (by norm_num [baseSim])
  rw [h]
  show (0 : ℝ) + 5 * (1 + energyBoost [] ((18 : ℕ) : ℝ) ((10 : ℕ) : ℝ)) = 5
  simp [energyBoost]

/-! ### Support of the injected field -/

lemma disturbField_ne_zero_bounds {sim : WaveSimulation} {x y m : ℝ} {p : ℕ}
    (hne : sim.disturbField x y m p ≠ 0) :
    ∃ px py : ℤ, 2 ≤ px ∧ 2 ≤ py ∧
      ⌊x - max 8 (m * 1.2)⌋ ≤ px ∧ px ≤ ⌊x + max 8 (m * 1.2)⌋ ∧
      ⌊y - max 8 (m * 1.2)⌋ ≤ py ∧ py ≤ ⌊y + max 8 (m * 1.2)⌋ ∧
      (p : ℤ) = py * sim.width + px := by
  obtain ⟨l, hl, hlne⟩ := Finset.exists_ne_zero_of_sum_ne_zero hne
  obtain ⟨k, hk, hkne⟩ := Finset.exists_ne_zero_of_sum_ne_zero hlne
  rw [Finset.mem_range] at hl hk
  unfold disturbTerm at hkne
  set radius := max (8 : ℝ) (m * 1.2) with hradius
  have hrad8 : (8 : ℝ) ≤ radius := le_max_left _ _
  cases hc : disturbContrib sim.width sim.height sim.faults x y m radius k l with
  | none => rw [hc] at hkne; simp at hkne
  | some q =>
    rw [hc] at hkne
    have hq1 : q.1 = p := by
      by_contra hqp
      exact hkne (by simp [hqp])
    obtain ⟨ha, hb, hc2, hd2, hq⟩ := disturbContrib_some hc
    have hfloor16 : (16 : ℤ) ≤ ⌊2 * radius⌋ := by
      rw [Int.le_floor]
      push_cast
      linarith
    have hkr : (k : ℝ) ≤ 2 * radius := by
      have h1 : k ≤ (⌊2 * radius⌋).toNat := by
        unfold disturbCount at hk
        omega
      have h2 : ((k : ℤ) : ℝ) ≤ ((⌊2 * radius⌋ : ℤ) : ℝ) := by
        exact_mod_cast le_trans (Int.ofNat_le.mpr h1) (by omega)
      calc (k : ℝ) = ((k : ℤ) : ℝ) := by push_cast; ring
        _ ≤ ((⌊2 * radius⌋ : ℤ) : ℝ) := h2
        _ ≤ 2 * radius := Int.floor_le _
    have hlr : (l : ℝ) ≤ 2 * radius := by
      have h1 : l ≤ (⌊2 * radius⌋).toNat := by
        unfold disturbCount at hl
        omega
      have h2 : ((l : ℤ) : ℝ) ≤ ((⌊2 * radius⌋ : ℤ) : ℝ) := by
        exact_mod_cast le_trans (Int.ofNat_le.mpr h1) (by omega)
      calc (l : ℝ) = ((l : ℤ) : ℝ) := by push_cast; ring
        _ ≤ ((⌊2 * radius⌋ : ℤ) : ℝ) := h2
        _ ≤ 2 * radius := Int.floor_le _
    refine ⟨⌊x + (-radius + (k : ℝ))⌋, ⌊y + (-radius + (l : ℝ))⌋, ha, hc2, ?_, ?_, ?_, ?_, ?_⟩
    · apply Int.floor_le_floor
      have : (0 : ℝ) ≤ (k : ℝ) := Nat.cast_nonneg k
      linarith
    · apply Int.floor_le_floor
      linarith
    · apply Int.floor_le_floor
      have : (0 : ℝ) ≤ (l : ℝ) := Nat.cast_nonneg l
      linarith
    · apply Int.floor_le_floor
      linarith
    · set A := ⌊x + (-radius + (k : ℝ))⌋
      set B := ⌊y + (-radius + (l : ℝ))⌋
      have hBw : (0 : ℤ) ≤ B * (sim.width : ℤ) := mul_nonneg (by omega) (by positivity)
      have hval : (0 : ℤ) ≤ B * (sim.width : ℤ) + A := by omega
      rw [← hq1, hq]
      exact (Int.toNat_of_nonneg hval).symm ▸ Int.toNat_of_nonneg hval

/-- C6: starting from a zeroed displacement grid with a fixed fault
configuration, two `disturb` calls with disjoint injected supports produce a
`uCurrent` field equal to the pointwise sum of the fields each call alone
produces on the zeroed grid (each call just adds its injected field). -/
theorem C6_superposition (sim : WaveSimulation) (x1 y1 m1 x2 y2 m2 : ℝ)
    (hz : ∀ p, sim.uCurrent p = 0)
    (hdisj : ∀ p, sim.disturbField x1 y1 m1 p = 0 ∨ sim.disturbField x2 y2 m2 p = 0) :
    ∀ p, ((sim.disturb x1 y1 m1).disturb x2 y2 m2).uCurrent p =
      (sim.disturb x1 y1 m1).uCurrent p + (sim.disturb x2 y2 m2).uCurrent p := by
  intro p
  have hpres : (sim.disturb x1 y1 m1).disturbField x2 y2 m2 p =
      sim.disturbField x2 y2 m2 p := rfl
  rw [disturb_uCurrent_apply, disturb_uCurrent_apply, disturb_uCurrent_apply, hpres, hz p]
  ring

/-- Witness for C6: two magnitude-1 disturbances at (20,20) and (60,60) of a
100×100 zero grid have disjoint supports, and superposition holds at a cell
of the first support. -/
theorem C6_superposition_witness :
    (((baseSim 100 100).disturb 20 20 1).disturb 60 60 1).uCurrent 1212 =
      ((baseSim 100 100).disturb 20 20 1).uCurrent 1212 +
        ((baseSim 100 100).disturb 60 60 1).uCurrent 1212 := by
  have hm : max (8 : ℝ) (1 * 1.2) = 8 := max_eq_left (by norm_num)
  have hw : ((baseSim 100 100).width : ℤ) = 100 := rfl
  have hbound1 : ∀ p : ℕ, (baseSim 100 100).disturbField 20 20 1 p ≠ 0 → (p : ℤ) ≤ 2828 := by
    intro p hp
    obtain ⟨px, py, h2x, h2y, hlo1, hhi1, hlo2, hhi2, hpeq⟩ := disturbField_ne_zero_bounds hp
    rw [hm] at hhi1 hhi2
    have hf1 : ⌊(20 : ℝ) + 8⌋ = (28 : ℤ) := by
      have : ((20 : ℝ) + 8) = ((28 : ℤ) : ℝ) := by norm_num
      rw [this, Int.floor_intCast]
    rw [hf1] at hhi1 hhi2
    rw [hw] at hpeq
    omega
  have hbound2 : ∀ p : ℕ, (baseSim 100 100).disturbField 60 60 1 p ≠ 0 → 5252 ≤ (p : ℤ) := by
    intro p hp
    obtain ⟨px, py, h2x, h2y, hlo1, hhi1, hlo2, hhi2, hpeq⟩ := disturbField_ne_zero_bounds hp
    rw [hm] at hlo1 hlo2
    have hf2 : ⌊(60 : ℝ) - 8⌋ = (52 : ℤ) := by
      have : ((60 : ℝ) - 8) = ((52 : ℤ) : ℝ) := by norm_num
      rw [this, Int.floor_intCast]
    rw [hf2] at hlo1 hlo2
    rw [hw] at hpeq
    omega
  apply C6_superposition (baseSim 100 100) 20 20 1 60 60 1 (fun p => rfl)
  intro p
  by_cases h1 : (baseSim 100 100).disturbField 20 20 1 p = 0
  · exact Or.inl h1
  · right
    by_contra h2
    have b1 := hbound1 p h1
    have b2 := hbound2 p h2
    omega

/-! ### The gradient cache only grows, and replaying cached queries is pure -/

lemma noiseExt_refl (s : SpectralNoise) : noiseExt s s := fun _ _ _ h => h

lemma noiseExt_trans {a b c : SpectralNoise} (h1 : noiseExt a b) (h2 : noiseExt b c) :
    noiseExt a c := fun ix iy g h => h2 ix iy g (h1 ix iy g h)

lemma gradient_ext (s : SpectralNoise) (ix iy : ℤ) :
    noiseExt s (s.gradient ix iy).2 := by
  intro jx jy g hg
  unfold SpectralNoise.gradient
  cases hc : s.gradients ix iy with
  | some g0 => exact hg
  | none =>
    simp only
    split
    · rename_i hj
      obtain ⟨rfl, rfl⟩ := hj
      rw [hc] at hg
      cases hg
    · exact hg

lemma gradient_cached (s : SpectralNoise) (ix iy : ℤ) :
    (s.gradient ix iy).2.gradients ix iy = some (s.gradient ix iy).1 := by
  unfold SpectralNoise.gradient
  cases hc : s.gradients ix iy with
  | some g0 => exact hc
  | none =>
    simp only
    simp

lemma gradient_replay {s t : SpectralNoise} {ix iy : ℤ}
    (h : noiseExt (s.gradient ix iy).2 t) :
    t.gradient ix iy = ((s.gradient ix iy).1, t) := by
  have hc := h ix iy _ (gradient_cached s ix iy)
  unfold SpectralNoise.gradient
  rw [hc]
  rfl

lemma dot_ext (s : SpectralNoise) (ix iy : ℤ) (x y : ℝ) :
    noiseExt s (s.dot ix iy x y).2 :=
  gradient_ext s ix iy

lemma dot_replay {s t : SpectralNoise} {ix iy : ℤ} {x y : ℝ}
    (h : noiseExt (s.dot ix iy x y).2 t) :
    t.dot ix iy x y = ((s.dot ix iy x y).1, t) := by
  unfold SpectralNoise.dot at h ⊢
  rw [gradient_replay h]

lemma perlin_ext (s : SpectralNoise) (x y : ℝ) :
    noiseExt s (s.perlin x y).2 := by
  show noiseExt s ((((s.dot ⌊x⌋ ⌊y⌋ x y).2.dot (⌊x⌋ + 1) ⌊y⌋ x y).2.dot ⌊x⌋ (⌊y⌋ + 1) x
    y).2.dot (⌊x⌋ + 1) (⌊y⌋ + 1) x y).2
  exact noiseExt_trans (dot_ext _ _ _ _ _)
    (noiseExt_trans (dot_ext _ _ _ _ _)
      (noiseExt_trans (dot_ext _ _ _ _ _) (dot_ext _ _ _ _ _)))

lemma perlin_replay {s t : SpectralNoise} {x y : ℝ}
    (h : noiseExt (s.perlin x y).2 t) :
    t.perlin x y = ((s.perlin x y).1, t) := by
  have h3 : noiseExt (((((s.dot ⌊x⌋ ⌊y⌋ x y).2.dot (⌊x⌋ + 1) ⌊y⌋ x y).2.dot ⌊x⌋ (⌊y⌋ + 1) x
      y).2.dot (⌊x⌋ + 1) (⌊y⌋ + 1) x y)).2 t := h
  have h2 : noiseExt ((((s.dot ⌊x⌋ ⌊y⌋ x y).2.dot (⌊x⌋ + 1) ⌊y⌋ x y).2.dot ⌊x⌋ (⌊y⌋ + 1) x
      y)).2 t := noiseExt_trans (dot_ext _ _ _ _ _) h3
  have h1 : noiseExt (((s.dot ⌊x⌋ ⌊y⌋ x y).2.dot (⌊x⌋ + 1) ⌊y⌋ x y)).2 t :=
    noiseExt_trans (dot_ext _ _ _ _ _) h2
  have h0 : noiseExt ((s.dot ⌊x⌋ ⌊y⌋ x y)).2 t :=
    noiseExt_trans (dot_ext _ _ _ _ _) h1
  simp only [SpectralNoise.perlin]
  rw [dot_replay h0]
  dsimp only
  rw [dot_replay h1]
  dsimp only
  rw [dot_replay h2]
  dsimp only
  rw [dot_replay h3]

lemma fbmAux_ext (x y : ℝ) :
    ∀ (n : ℕ) (s : SpectralNoise) (amp freq : ℝ),
      noiseExt s (SpectralNoise.fbmAux x y n s amp freq).2 := by
  intro n
  induction n with
  | zero => intro s amp freq; exact noiseExt_refl s
  | succ n ih =>
    intro s amp freq
    show noiseExt s (SpectralNoise.fbmAux x y n (s.perlin (x * freq) (y * freq)).2
      (amp * 0.55) (freq * 2)).2
    exact noiseExt_trans (perlin_ext _ _ _) (ih _ _ _)

lemma fbmAux_replay (x y : ℝ) :
    ∀ (n : ℕ) (s t : SpectralNoise) (amp freq : ℝ),
      noiseExt (SpectralNoise.fbmAux x y n s amp freq).2 t →
      SpectralNoise.fbmAux x y n t amp freq =
        ((SpectralNoise.fbmAux x y n s amp freq).1, t) := by
  intro n
  induction n with
  | zero => intro s t amp freq _; rfl
  | succ n ih =>
    intro s t amp freq h
    unfold SpectralNoise.fbmAux at h ⊢
    have hp : noiseExt (s.perlin (x * freq) (y * freq)).2 t :=
      noiseExt_trans (fbmAux_ext x y n _ _ _) h
    rw [perlin_replay hp]
    simp only
    rw [ih _ _ _ _ h]

lemma fbm_ext (s : SpectralNoise) (x y : ℝ) (o : ℕ) :
    noiseExt s (s.fbm x y o).2 :=
  fbmAux_ext x y o s 0.5 0.9

lemma fbm_replay {s t : SpectralNoise} {x y : ℝ} {o : ℕ}
    (h : noiseExt (s.fbm x y o).2 t) :
    t.fbm x y o = ((s.fbm x y o).1, t) :=
  fbmAux_replay x y o s t 0.5 0.9 h

/-! ### Grid update helpers -/

lemma gridUpdate_ne (f : ℕ → ℝ) (i : ℕ) (v : ℝ) (j : ℕ) (h : j ≠ i) :
    gridUpdate f i v j = f j := by
  simp [gridUpdate, h]

lemma gridUpdate_at (f : ℕ → ℝ) (i : ℕ) (v : ℝ) : gridUpdate f i v i = v := by
  simp [gridUpdate]

lemma gridUpdate_self (f : ℕ → ℝ) (i : ℕ) : gridUpdate f i (f i) = f := by
  funext j
  by_cases hj : j = i
  · subst hj; simp [gridUpdate]
  · simp [gridUpdate, hj]

/-! ### The reset sweep -/

lemma resetCell_width (sim : WaveSimulation) (c : ℕ × ℕ) :
    (sim.resetCell c).width = sim.width := rfl

lemma resetCell_height (sim : WaveSimulation) (c : ℕ × ℕ) :
    (sim.resetCell c).height = sim.height := rfl

lemma resetCell_rng (sim : WaveSimulation) (c : ℕ × ℕ) :
    (sim.resetCell c).rng = sim.rng := rfl

lemma resetCell_faults (sim : WaveSimulation) (c : ℕ × ℕ) :
    (sim.resetCell c).faults = sim.faults := rfl

lemma resetCell_noise (sim : WaveSimulation) (c : ℕ × ℕ) :
    (sim.resetCell c).noise =
      (sim.noise.fbm (((c.1 : ℝ) / (sim.width : ℝ)) * 6)
        (((c.2 : ℝ) / (sim.height : ℝ)) * 6) 5).2 := by
  simp only [WaveSimulation.resetCell]

lemma resetFold_width : ∀ (L : List (ℕ × ℕ)) (sim : WaveSimulation),
    (L.foldl WaveSimulation.resetCell sim).width = sim.width := by
  intro L
  induction L with
  | nil => intro sim; rfl
  | cons c L ih =>
    intro sim
    simp only [List.foldl_cons]
    rw [ih]
    exact resetCell_width sim c

lemma resetFold_height : ∀ (L : List (ℕ × ℕ)) (sim : WaveSimulation),
    (L.foldl WaveSimulation.resetCell sim).height = sim.height := by
  intro L
  induction L with
  | nil => intro sim; rfl
  | cons c L ih =>
    intro sim
    simp only [List.foldl_cons]
    rw [ih]
    exact resetCell_height sim c

lemma resetFold_rng : ∀ (L : List (ℕ × ℕ)) (sim : WaveSimulation),
    (L.foldl WaveSimulation.resetCell sim).rng = sim.rng := by
  intro L
  induction L with
  | nil => intro sim; rfl
  | cons c L ih =>
    intro sim
    simp only [List.foldl_cons]
    rw [ih]
    exact resetCell_rng sim c

lemma resetFold_faults : ∀ (L : List (ℕ × ℕ)) (sim : WaveSimulation),
    (L.foldl WaveSimulation.resetCell sim).faults = sim.faults := by
  intro L
  induction L with
  | nil => intro sim; rfl
  | cons c L ih =>
    intro sim
    simp only [List.foldl_cons]
    rw [ih]
    exact resetCell_faults sim c

lemma resetFold_noiseExt : ∀ (L : List (ℕ × ℕ)) (sim : WaveSimulation),
    noiseExt sim.noise (L.foldl WaveSimulation.resetCell sim).noise := by
  intro L
  induction L with
  | nil => intro sim; exact noiseExt_refl _
  | cons c L ih =>
    intro sim
    simp only [List.foldl_cons]
    refine noiseExt_trans ?_ (ih (sim.resetCell c))
    rw [resetCell_noise]
    exact fbm_ext _ _ _ _

lemma resetCell_grid_frame (sim : WaveSimulation) (c : ℕ × ℕ) (i : ℕ)
    (hne : c.2 * sim.width + c.1 ≠ i) :
    (sim.resetCell c).terrain i = sim.terrain i ∧
    (sim.resetCell c).boundaryMask i = sim.boundaryMask i ∧
    (sim.resetCell c).uPrev i = sim.uPrev i ∧
    (sim.resetCell c).uCurrent i = sim.uCurrent i ∧
    (sim.resetCell c).uNext i = sim.uNext i ∧
    (sim.resetCell c).velocity i = sim.velocity i := by
  have hi : i ≠ sim.index c.1 c.2 := by
    simp only [WaveSimulation.index]
    omega
  simp only [WaveSimulation.resetCell]
  exact ⟨gridUpdate_ne _ _ _ _ hi, gridUpdate_ne _ _ _ _ hi, gridUpdate_ne _ _ _ _ hi,
    gridUpdate_ne _ _ _ _ hi, gridUpdate_ne _ _ _ _ hi, gridUpdate_ne _ _ _ _ hi⟩

lemma resetFold_frame : ∀ (L : List (ℕ × ℕ)) (sim : WaveSimulation) (i : ℕ),
    (∀ c ∈ L, c.2 * sim.width + c.1 ≠ i) →
    (L.foldl WaveSimulation.resetCell sim).terrain i = sim.terrain i ∧
    (L.foldl WaveSimulation.resetCell sim).boundaryMask i = sim.boundaryMask i ∧
    (L.foldl WaveSimulation.resetCell sim).uPrev i = sim.uPrev i ∧
    (L.foldl WaveSimulation.resetCell sim).uCurrent i = sim.uCurrent i ∧
    (L.foldl WaveSimulation.resetCell sim).uNext i = sim.uNext i ∧
    (L.foldl WaveSimulation.resetCell sim).velocity i = sim.velocity i := by
  intro L
  induction L with
  | nil => intro sim i _; exact ⟨rfl, rfl, rfl, rfl, rfl, rfl⟩
  | cons c L ih =>
    intro sim i hni
    simp only [List.foldl_cons]
    have htail : ∀ d ∈ L, d.2 * (sim.resetCell c).width + d.1 ≠ i := by
      intro d hd
      rw [resetCell_width]
      exact hni d (List.mem_cons_of_mem c hd)
    obtain ⟨t1, t2, t3, t4, t5, t6⟩ := ih (sim.resetCell c) i htail
    obtain ⟨s1, s2, s3, s4, s5, s6⟩ :=
      resetCell_grid_frame sim c i (hni c (List.mem_cons_self c L))
    exact ⟨t1.trans s1, t2.trans s2, t3.trans s3, t4.trans s4, t5.trans s5, t6.trans s6⟩

lemma resetFold_zero : ∀ (L : List (ℕ × ℕ)) (sim : WaveSimulation) (i : ℕ),
    i ∈ L.map (fun d : ℕ × ℕ => d.2 * sim.width + d.1) →
    (L.foldl WaveSimulation.resetCell sim).uPrev i = 0 ∧
    (L.foldl WaveSimulation.resetCell sim).uCurrent i = 0 ∧
    (L.foldl WaveSimulation.resetCell sim).uNext i = 0 ∧
    (L.foldl WaveSimulation.resetCell sim).velocity i = 0 := by
  intro L
  induction L with
  | nil => intro sim i hi; cases hi
  | cons c L ih =>
    intro sim i hi
    simp only [List.foldl_cons]
    by_cases htl : i ∈ L.map (fun d : ℕ × ℕ => d.2 * sim.width + d.1)
    · have htl' : i ∈ L.map (fun d : ℕ × ℕ => d.2 * (sim.resetCell c).width + d.1) := by
        rw [resetCell_width]
        exact htl
      exact ih (sim.resetCell c) i htl'
    · have hihead : i = c.2 * sim.width + c.1 := by
        rw [List.map_cons, List.mem_cons] at hi
        rcases hi with h | h
        · exact h
        · exact absurd h htl
      have hnotl : ∀ d ∈ L, d.2 * (sim.resetCell c).width + d.1 ≠ i := by
        intro d hd hdi
        apply htl
        rw [resetCell_width] at hdi
        exact hdi ▸ List.mem_map_of_mem _ hd
      obtain ⟨-, -, f3, f4, f5, f6⟩ := resetFold_frame L (sim.resetCell c) i hnotl
      have hip : i = sim.index c.1 c.2 := hihead
      constructor
      · rw [f3]
        show gridUpdate sim.uPrev (sim.index c.1 c.2) 0 i = 0
        rw [hip]
        exact gridUpdate_at _ _ _
      constructor
      · rw [f4]
        show gridUpdate sim.uCurrent (sim.index c.1 c.2) 0 i = 0
        rw [hip]
        exact gridUpdate_at _ _ _
      constructor
      · rw [f5]
        show gridUpdate sim.uNext (sim.index c.1 c.2) 0 i = 0
        rw [hip]
        exact gridUpdate_at _ _ _
      · rw [f6]
        show gridUpdate sim.velocity (sim.index c.1 c.2) 0 i = 0
        rw [hip]
        exact gridUpdate_at _ _ _

lemma mem_cellList {w h : ℕ} {c : ℕ × ℕ} :
    c ∈ cellList w h ↔ c.1 < w ∧ c.2 < h := by
  rcases c with ⟨x, y⟩
  simp only [cellList, List.mem_flatMap, List.mem_map, List.mem_range]
  constructor
  · rintro ⟨y', hy', x', hx', heq⟩
    rw [Prod.mk.injEq] at heq
    obtain ⟨rfl, rfl⟩ := heq
    exact ⟨hx', hy'⟩
  · rintro ⟨hx, hy⟩
    exact ⟨y, hy, x, hx, rfl⟩

lemma cellList_map_index_nodup (w h : ℕ) :
    ((cellList w h).map fun c : ℕ × ℕ => c.2 * w + c.1).Nodup := by
  have heq : ((cellList w h).map fun c : ℕ × ℕ => c.2 * w + c.1) =
      (List.range h).flatMap fun y => (List.range w).map fun x => y * w + x := by
    simp only [cellList, List.map_flatMap, List.map_map]
    rfl
  rw [heq]
  apply nodup_rowMajor
  · exact List.nodup_range _
  · exact List.nodup_range _
  · intro x hx
    exact List.mem_range.mp hx

/-! ### Replaying the reset sweep is the identity -/

lemma resetCell_replay (sim b : WaveSimulation) (c : ℕ × ℕ)
    (hw : b.width = sim.width) (hh : b.height = sim.height)
    (hext : noiseExt (sim.resetCell c).noise b.noise)
    (ht : b.terrain (sim.index c.1 c.2) = (sim.resetCell c).terrain (sim.index c.1 c.2))
    (hm : b.boundaryMask (sim.index c.1 c.2) =
      (sim.resetCell c).boundaryMask (sim.index c.1 c.2))
    (hp : b.uPrev (sim.index c.1 c.2) = (sim.resetCell c).uPrev (sim.index c.1 c.2))
    (hc2 : b.uCurrent (sim.index c.1 c.2) = (sim.resetCell c).uCurrent (sim.index c.1 c.2))
    (hn : b.uNext (sim.index c.1 c.2) = (sim.resetCell c).uNext (sim.index c.1 c.2))
    (hv : b.velocity (sim.index c.1 c.2) = (sim.resetCell c).velocity (sim.index c.1 c.2)) :
    b.resetCell c = b := by
  have hext' : noiseExt (sim.noise.fbm (((c.1 : ℝ) / (sim.width : ℝ)) * 6)
      (((c.2 : ℝ) / (sim.height : ℝ)) * 6) 5).2 b.noise := by
    rw [← resetCell_noise]
    exact hext
  have hidx : WaveSimulation.index b c.1 c.2 = WaveSimulation.index sim c.1 c.2 := by
    simp only [WaveSimulation.index, hw]
  have vt : (sim.resetCell c).terrain (sim.index c.1 c.2) =
      (sim.noise.fbm (((c.1 : ℝ) / (sim.width : ℝ)) * 6)
          (((c.2 : ℝ) / (sim.height : ℝ)) * 6) 5).1 * 0.4 +
        Real.exp (-20 * ((c.1 : ℝ) / (sim.width : ℝ) - 0.5) ^ 2) * 0.2 := by
    simp only [WaveSimulation.resetCell]
    exact gridUpdate_at _ _ _
  have vm : (sim.resetCell c).boundaryMask (sim.index c.1 c.2) =
      (min (min ((c.1 : ℝ) / (sim.width : ℝ)) ((c.2 : ℝ) / (sim.height : ℝ)))
        (min (1 - (c.1 : ℝ) / (sim.width : ℝ))
          (1 - (c.2 : ℝ) / (sim.height : ℝ)))) ^ (0.3 : ℝ) := by
    simp only [WaveSimulation.resetCell]
    exact gridUpdate_at _ _ _
  have vp : (sim.resetCell c).uPrev (sim.index c.1 c.2) = 0 := by
    simp only [WaveSimulation.resetCell]
    exact gridUpdate_at _ _ _
  have vc : (sim.resetCell c).uCurrent (sim.index c.1 c.2) = 0 := by
    simp only [WaveSimulation.resetCell]
    exact gridUpdate_at _ _ _
  have vn : (sim.resetCell c).uNext (sim.index c.1 c.2) = 0 := by
    simp only [WaveSimulation.resetCell]
    exact gridUpdate_at _ _ _
  have vv : (sim.resetCell c).velocity (sim.index c.1 c.2) = 0 := by
    simp only [WaveSimulation.resetCell]
    exact gridUpdate_at _ _ _
  have hT : gridUpdate b.terrain (sim.index c.1 c.2)
      ((sim.noise.fbm (((c.1 : ℝ) / (sim.width : ℝ)) * 6)
          (((c.2 : ℝ) / (sim.height : ℝ)) * 6) 5).1 * 0.4 +
        Real.exp (-20 * ((c.1 : ℝ) / (sim.width : ℝ) - 0.5) ^ 2) * 0.2) = b.terrain := by
    rw [← ht.trans vt]
    exact gridUpdate_self _ _
  have hM : gridUpdate b.boundaryMask (sim.index c.1 c.2)
      ((min (min ((c.1 : ℝ) / (sim.width : ℝ)) ((c.2 : ℝ) / (sim.height : ℝ)))
        (min (1 - (c.1 : ℝ) / (sim.width : ℝ))
          (1 - (c.2 : ℝ) / (sim.height : ℝ)))) ^ (0.3 : ℝ)) = b.boundaryMask := by
    rw [← hm.trans vm]
    exact gridUpdate_self _ _
  have hP : gridUpdate b.uPrev (sim.index c.1 c.2) 0 = b.uPrev := by
    rw [← hp.trans vp]
    exact gridUpdate_self _ _
  have hC : gridUpdate b.uCurrent (sim.index c.1 c.2) 0 = b.uCurrent := by
    rw [← hc2.trans vc]
    exact gridUpdate_self _ _
  have hN : gridUpdate b.uNext (sim.index c.1 c.2) 0 = b.uNext := by
    rw [← hn.trans vn]
    exact gridUpdate_self _ _
  have hV : gridUpdate b.velocity (sim.index c.1 c.2) 0 = b.velocity := by
    rw [← hv.trans vv]
    exact gridUpdate_self _ _
  simp only [WaveSimulation.resetCell, hidx, hw, hh]
  rw [fbm_replay hext']
  dsimp only
  rw [hT, hM, hP, hC, hN, hV, ← hw, ← hh]

lemma resetFold_idem : ∀ (L : List (ℕ × ℕ)) (sim : WaveSimulation),
    ((L.map fun d : ℕ × ℕ => d.2 * sim.width + d.1).Nodup) →
    L.foldl WaveSimulation.resetCell (L.foldl WaveSimulation.resetCell sim) =
      L.foldl WaveSimulation.resetCell sim := by
  intro L
  induction L with
  | nil => intro sim _; rfl
  | cons c L ih =>
    intro sim hnd
    rw [List.map_cons, List.nodup_cons] at hnd
    obtain ⟨hhead, htail⟩ := hnd
    simp only [List.foldl_cons]
    have hbw : (L.foldl WaveSimulation.resetCell (sim.resetCell c)).width = sim.width := by
      rw [resetFold_width]
      exact resetCell_width sim c
    have hbh : (L.foldl WaveSimulation.resetCell (sim.resetCell c)).height = sim.height := by
      rw [resetFold_height]
      exact resetCell_height sim c
    have hidx_notin : ∀ d ∈ L, d.2 * (sim.resetCell c).width + d.1 ≠ sim.index c.1 c.2 := by
      intro d hd hdi
      apply hhead
      rw [resetCell_width] at hdi
      have hci : sim.index c.1 c.2 = c.2 * sim.width + c.1 := rfl
      rw [hci] at hdi
      exact hdi ▸ List.mem_map_of_mem _ hd
    obtain ⟨ft, fm, fp, fc, fn, fv⟩ :=
      resetFold_frame L (sim.resetCell c) (sim.index c.1 c.2) hidx_notin
    have hkey : (L.foldl WaveSimulation.resetCell (sim.resetCell c)).resetCell c =
        L.foldl WaveSimulation.resetCell (sim.resetCell c) :=
      resetCell_replay sim _ c hbw hbh
        (resetFold_noiseExt L (sim.resetCell c)) ft fm fp fc fn fv
    rw [hkey]
    have htail' : (L.map fun d : ℕ × ℕ => d.2 * (sim.resetCell c).width + d.1).Nodup := by
      rw [resetCell_width]
      exact htail
    exact ih (sim.resetCell c) htail'

lemma resetCell_time_commute (s : WaveSimulation) (t : ℝ) (lr : Option ℝ) (c : ℕ × ℕ) :
    WaveSimulation.resetCell { s with time := t, lastRupture := lr } c =
      { s.resetCell c with time := t, lastRupture := lr } := by
  simp only [WaveSimulation.resetCell, WaveSimulation.index]

lemma resetFold_time_commute : ∀ (L : List (ℕ × ℕ)) (s : WaveSimulation) (t : ℝ)
    (lr : Option ℝ),
    L.foldl WaveSimulation.resetCell { s with time := t, lastRupture := lr } =
      { L.foldl WaveSimulation.resetCell s with time := t, lastRupture := lr } := by
  intro L
  induction L with
  | nil => intro s t lr; rfl
  | cons c L ih =>
    intro s t lr
    simp only [List.foldl_cons]
    rw [resetCell_time_commute, ih]

lemma resetTerrain_def (sim : WaveSimulation) :
    sim.resetTerrain =
      { (cellList sim.width sim.height).foldl WaveSimulation.resetCell sim with
        time := 0, lastRupture := none } := by
  simp only [WaveSimulation.resetTerrain]

lemma resetTerrain_width (sim : WaveSimulation) :
    (sim.resetTerrain).width = sim.width := by
  rw [resetTerrain_def]
  show ((cellList sim.width sim.height).foldl WaveSimulation.resetCell sim).width = sim.width
  exact resetFold_width _ _

lemma resetTerrain_height (sim : WaveSimulation) :
    (sim.resetTerrain).height = sim.height := by
  rw [resetTerrain_def]
  show ((cellList sim.width sim.height).foldl WaveSimulation.resetCell sim).height = sim.height
  exact resetFold_height _ _

lemma resetTerrain_idem (sim : WaveSimulation) :
    (sim.resetTerrain).resetTerrain = sim.resetTerrain := by
  rw [resetTerrain_def sim, resetTerrain_def]
  have hRw : ({ (cellList sim.width sim.height).foldl WaveSimulation.resetCell sim with
      time := (0 : ℝ), lastRupture := (none : Option ℝ) } : WaveSimulation).width = sim.width := by
    show ((cellList sim.width sim.height).foldl WaveSimulation.resetCell sim).width = sim.width
    exact resetFold_width _ _
  have hRh : ({ (cellList sim.width sim.height).foldl WaveSimulation.resetCell sim with
      time := (0 : ℝ), lastRupture := (none : Option ℝ) } : WaveSimulation).height = sim.height := by
    show ((cellList sim.width sim.height).foldl WaveSimulation.resetCell sim).height = sim.height
    exact resetFold_height _ _
  rw [hRw, hRh]
  rw [resetFold_time_commute]
  rw [resetFold_idem (cellList sim.width sim.height) sim
    (cellList_map_index_nodup sim.width sim.height)]

lemma resetTerrain_zero (sim : WaveSimulation) (x y : ℕ)
    (hx : x < sim.width) (hy : y < sim.height) :
    (sim.resetTerrain).uPrev (y * sim.width + x) = 0 ∧
    (sim.resetTerrain).uCurrent (y * sim.width + x) = 0 ∧
    (sim.resetTerrain).uNext (y * sim.width + x) = 0 ∧
    (sim.resetTerrain).velocity (y * sim.width + x) = 0 := by
  rw [resetTerrain_def]
  have hmem : (y * sim.width + x) ∈
      (cellList sim.width sim.height).map (fun d : ℕ × ℕ => d.2 * sim.width + d.1) := by
    have hc : ((x, y) : ℕ × ℕ) ∈ cellList sim.width sim.height :=
      mem_cellList.mpr ⟨hx, hy⟩
    exact List.mem_map_of_mem _ hc
  obtain ⟨z1, z2, z3, z4⟩ := resetFold_zero (cellList sim.width sim.height) sim _ hmem
  exact ⟨z1, z2, z3, z4⟩

lemma resetTerrain_time (sim : WaveSimulation) : (sim.resetTerrain).time = 0 := rfl

lemma resetTerrain_lastRupture (sim : WaveSimulation) :
    (sim.resetTerrain).lastRupture = none := rfl

/-- C5: calling `resetTerrain()` twice in a row yields identical `terrain`
and `boundaryMask` arrays after each of the two calls (the gradient cache is
fully populated by the first sweep, so the second sweep replays the same
values and is in fact the identity), and after each call the four dynamic
grids are zero at every cell while `time = 0` and `lastRupture = null`. -/
theorem C5_reset_idempotent (sim : WaveSimulation) :
    ((sim.resetTerrain).resetTerrain).terrain = (sim.resetTerrain).terrain ∧
    ((sim.resetTerrain).resetTerrain).boundaryMask = (sim.resetTerrain).boundaryMask ∧
    (∀ x y, x < sim.width → y < sim.height →
      ((sim.resetTerrain).uPrev (y * sim.width + x) = 0 ∧
        (sim.resetTerrain).uCurrent (y * sim.width + x) = 0 ∧
        (sim.resetTerrain).uNext (y * sim.width + x) = 0 ∧
        (sim.resetTerrain).velocity (y * sim.width + x) = 0) ∧
      (((sim.resetTerrain).resetTerrain).uPrev (y * sim.width + x) = 0 ∧
        ((sim.resetTerrain).resetTerrain).uCurrent (y * sim.width + x) = 0 ∧
        ((sim.resetTerrain).resetTerrain).uNext (y * sim.width + x) = 0 ∧
        ((sim.resetTerrain).resetTerrain).velocity (y * sim.width + x) = 0)) ∧
    (sim.resetTerrain).time = 0 ∧ ((sim.resetTerrain).resetTerrain).time = 0 ∧
    (sim.resetTerrain).lastRupture = none ∧
    ((sim.resetTerrain).resetTerrain).lastRupture = none := by
  rw [resetTerrain_idem]
  refine ⟨rfl, rfl, ?_, resetTerrain_time sim, resetTerrain_time sim,
    resetTerrain_lastRupture sim, resetTerrain_lastRupture sim⟩
  intro x y hx hy
  have hz := resetTerrain_zero sim x y hx hy
  exact ⟨hz, hz⟩

/-- Witness for C5 on a concrete 2×2 state. -/
theorem C5_reset_idempotent_witness :
    (((baseSim 2 2).resetTerrain).resetTerrain).terrain =
      ((baseSim 2 2).resetTerrain).terrain ∧
    ((baseSim 2 2).resetTerrain).uPrev (1 * (baseSim 2 2).width + 1) = 0 := by
  refine ⟨(C5_reset_idempotent (baseSim 2 2)).1, ?_⟩
  exact ((C5_reset_idempotent (baseSim 2 2)).2.2.1 1 1 (by norm_num [baseSim])
    (by norm_num [baseSim])).1.1

/-! ### Cached gradients are bounded, and stay bounded -/

lemma gradient_WF_val {s : SpectralNoise} (hWF : noiseWF s) (ix iy : ℤ) :
    |(s.gradient ix iy).1.1| ≤ 1 ∧ |(s.gradient ix iy).1.2| ≤ 1 := by
  unfold SpectralNoise.gradient
  cases hc : s.gradients ix iy with
  | some g => exact hWF ix iy g hc
  | none =>
    simp only
    exact ⟨Real.abs_cos_le_one _, Real.abs_sin_le_one _⟩

lemma gradient_WF_state {s : SpectralNoise} (hWF : noiseWF s) (ix iy : ℤ) :
    noiseWF (s.gradient ix iy).2 := by
  unfold SpectralNoise.gradient
  cases hc : s.gradients ix iy with
  | some g => exact hWF
  | none =>
    simp only
    intro jx jy g hg
    simp only at hg
    split at hg
    · rw [Option.some.injEq] at hg
      subst hg
      exact ⟨Real.abs_cos_le_one _, Real.abs_sin_le_one _⟩
    · exact hWF jx jy g hg

lemma dot_WF_state {s : SpectralNoise} (hWF : noiseWF s) (ix iy : ℤ) (x y : ℝ) :
    noiseWF (s.dot ix iy x y).2 :=
  gradient_WF_state hWF ix iy

lemma perlin_WF_state {s : SpectralNoise} (hWF : noiseWF s) (x y : ℝ) :
    noiseWF (s.perlin x y).2 := by
  show noiseWF ((((s.dot ⌊x⌋ ⌊y⌋ x y).2.dot (⌊x⌋ + 1) ⌊y⌋ x y).2.dot ⌊x⌋ (⌊y⌋ + 1) x
    y).2.dot (⌊x⌋ + 1) (⌊y⌋ + 1) x y).2
  exact dot_WF_state (dot_WF_state (dot_WF_state (dot_WF_state hWF _ _ _ _) _ _ _ _)
    _ _ _ _) _ _ _ _

lemma fbmAux_WF_state (x y : ℝ) : ∀ (n : ℕ) (s : SpectralNoise) (amp freq : ℝ),
    noiseWF s → noiseWF (SpectralNoise.fbmAux x y n s amp freq).2 := by
  intro n
  induction n with
  | zero => intro s amp freq hWF; exact hWF
  | succ n ih =>
    intro s amp freq hWF
    show noiseWF (SpectralNoise.fbmAux x y n (s.perlin (x * freq) (y * freq)).2
      (amp * 0.55) (freq * 2)).2
    exact ih _ _ _ (perlin_WF_state hWF _ _)

lemma fbm_WF_state {s : SpectralNoise} (hWF : noiseWF s) (x y : ℝ) (o : ℕ) :
    noiseWF (s.fbm x y o).2 :=
  fbmAux_WF_state x y o s 0.5 0.9 hWF

/-! ### Value bounds for the noise field -/

lemma fade_nonneg {t : ℝ} (h0 : 0 ≤ t) (h1 : t ≤ 1) : 0 ≤ SpectralNoise.fade t := by
  unfold SpectralNoise.fade
  nlinarith [mul_nonneg (mul_nonneg (mul_nonneg h0 h0) h0) (sq_nonneg (t - 5 / 4)),
    mul_nonneg (mul_nonneg h0 h0) h0]

lemma fade_le_one {t : ℝ} (h0 : 0 ≤ t) (h1 : t ≤ 1) : SpectralNoise.fade t ≤ 1 := by
  unfold SpectralNoise.fade
  have ha : (0 : ℝ) ≤ 1 - t := by linarith
  have hcube : (0 : ℝ) ≤ (1 - t) * ((1 - t) * (1 - t)) := mul_nonneg ha (mul_nonneg ha ha)
  nlinarith [mul_nonneg hcube (mul_nonneg h0 h0), mul_nonneg hcube h0, hcube]

lemma interp_abs_le {a b s M : ℝ} (ha : |a| ≤ M) (hb : |b| ≤ M)
    (h0 : 0 ≤ s) (h1 : s ≤ 1) : |a + s * (b - a)| ≤ M := by
  rw [abs_le] at ha hb ⊢
  constructor
  · nlinarith [mul_nonneg h0 (by linarith : (0 : ℝ) ≤ b + M),
      mul_nonneg (by linarith : (0 : ℝ) ≤ 1 - s) (by linarith : (0 : ℝ) ≤ a + M)]
  · nlinarith [mul_nonneg h0 (by linarith : (0 : ℝ) ≤ M - b),
      mul_nonneg (by linarith : (0 : ℝ) ≤ 1 - s) (by linarith : (0 : ℝ) ≤ M - a)]

lemma dot_val_bound {s : SpectralNoise} (hWF : noiseWF s) (ix iy : ℤ) (x y : ℝ)
    (hx : |x - (ix : ℝ)| ≤ 1) (hy : |y - (iy : ℝ)| ≤ 1) :
    |(s.dot ix iy x y).1| ≤ 2 := by
  obtain ⟨h1, h2⟩ := gradient_WF_val hWF ix iy
  show |(s.gradient ix iy).1.1 * (x - (ix : ℝ)) + (s.gradient ix iy).1.2 * (y - (iy : ℝ))| ≤ 2
  calc |(s.gradient ix iy).1.1 * (x - (ix : ℝ)) + (s.gradient ix iy).1.2 * (y - (iy : ℝ))| ≤
      |(s.gradient ix iy).1.1 * (x - (ix : ℝ))| + |(s.gradient ix iy).1.2 * (y - (iy : ℝ))| :=
        abs_add _ _
    _ = |(s.gradient ix iy).1.1| * |x - (ix : ℝ)| + |(s.gradient ix iy).1.2| * |y - (iy : ℝ)| := by
        rw [abs_mul, abs_mul]
    _ ≤ 1 * 1 + 1 * 1 := by
        exact add_le_add (mul_le_mul h1 hx (abs_nonneg _) zero_le_one)
          (mul_le_mul h2 hy (abs_nonneg _) zero_le_one)
    _ = 2 := by norm_num

lemma perlin_val_bound {s : SpectralNoise} (hWF : noiseWF s) (x y : ℝ) :
    |(s.perlin x y).1| ≤ 2 := by
  have hfx0 : (0 : ℝ) ≤ x - (⌊x⌋ : ℝ) := by linarith [Int.floor_le x]
  have hfx1 : x - (⌊x⌋ : ℝ) ≤ 1 := by linarith [Int.lt_floor_add_one x]
  have hfy0 : (0 : ℝ) ≤ y - (⌊y⌋ : ℝ) := by linarith [Int.floor_le y]
  have hfy1 : y - (⌊y⌋ : ℝ) ≤ 1 := by linarith [Int.lt_floor_add_one y]
  have hx0 : |x - ((⌊x⌋ : ℤ) : ℝ)| ≤ 1 := by rw [abs_le]; constructor <;> linarith
  have hx1 : |x - ((⌊x⌋ + 1 : ℤ) : ℝ)| ≤ 1 := by
    push_cast
    rw [abs_le]
    constructor <;> linarith
  have hy0 : |y - ((⌊y⌋ : ℤ) : ℝ)| ≤ 1 := by rw [abs_le]; constructor <;> linarith
  have hy1 : |y - ((⌊y⌋ + 1 : ℤ) : ℝ)| ≤ 1 := by
    push_cast
    rw [abs_le]
    constructor <;> linarith
  have w1 : noiseWF (s.dot ⌊x⌋ ⌊y⌋ x y).2 := dot_WF_state hWF _ _ _ _
  have w2 : noiseWF ((s.dot ⌊x⌋ ⌊y⌋ x y).2.dot (⌊x⌋ + 1) ⌊y⌋ x y).2 :=
    dot_WF_state w1 _ _ _ _
  have w3 : noiseWF (((s.dot ⌊x⌋ ⌊y⌋ x y).2.dot (⌊x⌋ + 1) ⌊y⌋ x y).2.dot ⌊x⌋ (⌊y⌋ + 1) x
      y).2 := dot_WF_state w2 _ _ _ _
  have b0 : |(s.dot ⌊x⌋ ⌊y⌋ x y).1| ≤ 2 := dot_val_bound hWF _ _ _ _ hx0 hy0
  have b1 : |((s.dot ⌊x⌋ ⌊y⌋ x y).2.dot (⌊x⌋ + 1) ⌊y⌋ x y).1| ≤ 2 :=
    dot_val_bound w1 _ _ _ _ hx1 hy0
  have b2 : |(((s.dot ⌊x⌋ ⌊y⌋ x y).2.dot (⌊x⌋ + 1) ⌊y⌋ x y).2.dot ⌊x⌋ (⌊y⌋ + 1) x y).1| ≤ 2 :=
    dot_val_bound w2 _ _ _ _ hx0 hy1
  have b3 : |((((s.dot ⌊x⌋ ⌊y⌋ x y).2.dot (⌊x⌋ + 1) ⌊y⌋ x y).2.dot ⌊x⌋ (⌊y⌋ + 1) x
      y).2.dot (⌊x⌋ + 1) (⌊y⌋ + 1) x y).1| ≤ 2 :=
    dot_val_bound w3 _ _ _ _ hx1 hy1
  have hsx0 : 0 ≤ SpectralNoise.fade (x - ((⌊x⌋ : ℤ) : ℝ)) := fade_nonneg hfx0 hfx1
  have hsx1 : SpectralNoise.fade (x - ((⌊x⌋ : ℤ) : ℝ)) ≤ 1 := fade_le_one hfx0 hfx1
  have hsy0 : 0 ≤ SpectralNoise.fade (y - ((⌊y⌋ : ℤ) : ℝ)) := fade_nonneg hfy0 hfy1
  have hsy1 : SpectralNoise.fade (y - ((⌊y⌋ : ℤ) : ℝ)) ≤ 1 := fade_le_one hfy0 hfy1
  have hi0 : |(s.dot ⌊x⌋ ⌊y⌋ x y).1 + SpectralNoise.fade (x - ((⌊x⌋ : ℤ) : ℝ)) *
      (((s.dot ⌊x⌋ ⌊y⌋ x y).2.dot (⌊x⌋ + 1) ⌊y⌋ x y).1 - (s.dot ⌊x⌋ ⌊y⌋ x y).1)| ≤ 2 :=
    interp_abs_le b0 b1 hsx0 hsx1
  have hi1 : |(((s.dot ⌊x⌋ ⌊y⌋ x y).2.dot (⌊x⌋ + 1) ⌊y⌋ x y).2.dot ⌊x⌋ (⌊y⌋ + 1) x y).1 +
      SpectralNoise.fade (x - ((⌊x⌋ : ℤ) : ℝ)) *
      (((((s.dot ⌊x⌋ ⌊y⌋ x y).2.dot (⌊x⌋ + 1) ⌊y⌋ x y).2.dot ⌊x⌋ (⌊y⌋ + 1) x
          y).2.dot (⌊x⌋ + 1) (⌊y⌋ + 1) x y).1 -
        (((s.dot ⌊x⌋ ⌊y⌋ x y).2.dot (⌊x⌋ + 1) ⌊y⌋ x y).2.dot ⌊x⌋ (⌊y⌋ + 1) x y).1)| ≤ 2 :=
    interp_abs_le b2 b3 hsx0 hsx1
  exact interp_abs_le hi0 hi1 hsy0 hsy1

lemma fbmAux_val_bound (x y : ℝ) : ∀ (n : ℕ) (s : SpectralNoise) (amp freq : ℝ),
    noiseWF s → 0 ≤ amp →
    |(SpectralNoise.fbmAux x y n s amp freq).1| ≤ amp * (40 / 9) := by
  intro n
  induction n with
  | zero =>
    intro s amp freq _ hamp
    show |(0 : ℝ)| ≤ amp * (40 / 9)
    rw [abs_zero]
    positivity
  | succ n ih =>
    intro s amp freq hWF hamp
    have hp := perlin_val_bound hWF (x * freq) (y * freq)
    have hr := ih (s.perlin (x * freq) (y * freq)).2 (amp * 0.55) (freq * 2)
      (perlin_WF_state hWF _ _) (by positivity)
    show |amp * (s.perlin (x * freq) (y * freq)).1 +
      (SpectralNoise.fbmAux x y n (s.perlin (x * freq) (y * freq)).2
        (amp * 0.55) (freq * 2)).1| ≤ amp * (40 / 9)
    calc |amp * (s.perlin (x * freq) (y * freq)).1 +
        (SpectralNoise.fbmAux x y n (s.perlin (x * freq) (y * freq)).2
          (amp * 0.55) (freq * 2)).1| ≤
        |amp * (s.perlin (x * freq) (y * freq)).1| +
          |(SpectralNoise.fbmAux x y n (s.perlin (x * freq) (y * freq)).2
            (amp * 0.55) (freq * 2)).1| := abs_add _ _
      _ ≤ amp * 2 + amp * 0.55 * (40 / 9) := by
          refine add_le_add ?_ hr
          rw [abs_mul, abs_of_nonneg hamp]
          exact mul_le_mul_of_nonneg_left hp hamp
      _ ≤ amp * (40 / 9) := by nlinarith

lemma resetCell_WF {sim : WaveSimulation} (h : noiseWF sim.noise) (c : ℕ × ℕ) :
    noiseWF (sim.resetCell c).noise := by
  rw [resetCell_noise]
  exact fbm_WF_state h _ _ _

lemma resetFold_WF : ∀ (L : List (ℕ × ℕ)) (sim : WaveSimulation),
    noiseWF sim.noise → noiseWF (L.foldl WaveSimulation.resetCell sim).noise := by
  intro L
  induction L with
  | nil => intro sim h; exact h
  | cons c L ih =>
    intro sim h
    simp only [List.foldl_cons]
    exact ih _ (resetCell_WF h c)

/-- Which value the reset sweep leaves in `terrain` and `boundaryMask` at a
swept cell: the fbm-based height (computed from some well-formed
intermediate cache state) plus the ridge term, and the edge-power mask. -/
lemma resetFold_written : ∀ (L : List (ℕ × ℕ)) (sim : WaveSimulation) (c : ℕ × ℕ),
    c ∈ L → ((L.map fun d : ℕ × ℕ => d.2 * sim.width + d.1).Nodup) →
    ∃ ns : SpectralNoise,
      (noiseWF sim.noise → noiseWF ns) ∧
      (L.foldl WaveSimulation.resetCell sim).terrain (c.2 * sim.width + c.1) =
        (ns.fbm (((c.1 : ℝ) / (sim.width : ℝ)) * 6)
            (((c.2 : ℝ) / (sim.height : ℝ)) * 6) 5).1 * 0.4 +
          Real.exp (-20 * ((c.1 : ℝ) / (sim.width : ℝ) - 0.5) ^ 2) * 0.2 ∧
      (L.foldl WaveSimulation.resetCell sim).boundaryMask (c.2 * sim.width + c.1) =
        (min (min ((c.1 : ℝ) / (sim.width : ℝ)) ((c.2 : ℝ) / (sim.height : ℝ)))
          (min (1 - (c.1 : ℝ) / (sim.width : ℝ))
            (1 - (c.2 : ℝ) / (sim.height : ℝ)))) ^ (0.3 : ℝ) := by
  intro L
  induction L with
  | nil => intro sim c hc; cases hc
  | cons d L ih =>
    intro sim c hc hnd
    rw [List.map_cons, List.nodup_cons] at hnd
    obtain ⟨hhead, htail⟩ := hnd
    simp only [List.foldl_cons]
    by_cases hcL : c ∈ L
    · have htail' : (L.map fun e : ℕ × ℕ => e.2 * (sim.resetCell d).width + e.1).Nodup := by
        rw [resetCell_width]
        exact htail
      obtain ⟨ns, hWFp, ht, hm⟩ := ih (sim.resetCell d) c hcL htail'
      rw [resetCell_width, resetCell_height] at ht hm
      exact ⟨ns, fun h => hWFp (resetCell_WF h d), ht, hm⟩
    · have hcd : c = d := by
        rcases List.mem_cons.mp hc with h | h
        · exact h
        · exact absurd h hcL
      subst hcd
      have hnotl : ∀ e ∈ L, e.2 * (sim.resetCell c).width + e.1 ≠ c.2 * sim.width + c.1 := by
        intro e he hei
        apply hhead
        rw [resetCell_width] at hei
        exact hei ▸ List.mem_map_of_mem _ he
      obtain ⟨ft, fm, -, -, -, -⟩ :=
        resetFold_frame L (sim.resetCell c) (c.2 * sim.width + c.1) hnotl
      refine ⟨sim.noise, fun h => h, ?_, ?_⟩
      · rw [ft]
        show (sim.resetCell c).terrain (sim.index c.1 c.2) = _
        simp only [WaveSimulation.resetCell]
        exact gridUpdate_at _ _ _
      · rw [fm]
        show (sim.resetCell c).boundaryMask (sim.index c.1 c.2) = _
        simp only [WaveSimulation.resetCell]
        exact gridUpdate_at _ _ _

lemma resetTerrain_WF {sim : WaveSimulation} (h : noiseWF sim.noise) :
    noiseWF (sim.resetTerrain).noise := by
  rw [resetTerrain_def]
  show noiseWF ((cellList sim.width sim.height).foldl WaveSimulation.resetCell sim).noise
  exact resetFold_WF _ sim h

lemma resetTerrain_written (sim : WaveSimulation) (x y : ℕ)
    (hx : x < sim.width) (hy : y < sim.height) :
    ∃ ns : SpectralNoise,
      (noiseWF sim.noise → noiseWF ns) ∧
      (sim.resetTerrain).terrain (y * sim.width + x) =
        (ns.fbm (((x : ℝ) / (sim.width : ℝ)) * 6)
            (((y : ℝ) / (sim.height : ℝ)) * 6) 5).1 * 0.4 +
          Real.exp (-20 * ((x : ℝ) / (sim.width : ℝ) - 0.5) ^ 2) * 0.2 ∧
      (sim.resetTerrain).boundaryMask (y * sim.width + x) =
        (min (min ((x : ℝ) / (sim.width : ℝ)) ((y : ℝ) / (sim.height : ℝ)))
          (min (1 - (x : ℝ) / (sim.width : ℝ))
            (1 - (y : ℝ) / (sim.height : ℝ)))) ^ (0.3 : ℝ) := by
  rw [resetTerrain_def]
  have hmem : ((x, y) : ℕ × ℕ) ∈ cellList sim.width sim.height := mem_cellList.mpr ⟨hx, hy⟩
  obtain ⟨ns, hWFp, ht, hm⟩ := resetFold_written (cellList sim.width sim.height) sim (x, y)
    hmem (cellList_map_index_nodup sim.width sim.height)
  exact ⟨ns, hWFp, ht, hm⟩

/-! ### Fold bounds for peak and energy -/

lemma foldl_max_ge_init {α : Type} (g : α → ℝ) :
    ∀ (L : List α) (a : ℝ), a ≤ L.foldl (fun p c => max p (g c)) a := by
  intro L
  induction L with
  | nil => intro a; exact le_refl a
  | cons c L ih =>
    intro a
    simp only [List.foldl_cons]
    exact le_trans (le_max_left a (g c)) (ih _)

lemma foldl_max_ge_mem {α : Type} (g : α → ℝ) :
    ∀ (L : List α) (a : ℝ) (c : α), c ∈ L →
      g c ≤ L.foldl (fun p c => max p (g c)) a := by
  intro L
  induction L with
  | nil => intro a c hc; cases hc
  | cons d L ih =>
    intro a c hc
    simp only [List.foldl_cons]
    rcases List.mem_cons.mp hc with h | h
    · subst h
      exact le_trans (le_max_right a (g c)) (foldl_max_ge_init g L _)
    · exact ih _ c h

lemma foldl_add_ge_init {α : Type} (g : α → ℝ) :
    ∀ (L : List α) (a : ℝ), (∀ c ∈ L, 0 ≤ g c) →
      a ≤ L.foldl (fun e c => e + g c) a := by
  intro L
  induction L with
  | nil => intro a _; exact le_refl a
  | cons c L ih =>
    intro a hg
    simp only [List.foldl_cons]
    have h1 : a ≤ a + g c := by
      have := hg c (List.mem_cons_self c L)
      linarith
    exact le_trans h1 (ih _ (fun d hd => hg d (List.mem_cons_of_mem c hd)))

lemma foldl_add_ge_mem {α : Type} (g : α → ℝ) :
    ∀ (L : List α) (a : ℝ) (c : α), c ∈ L → (∀ d ∈ L, 0 ≤ g d) →
      a + g c ≤ L.foldl (fun e c => e + g c) a := by
  intro L
  induction L with
  | nil => intro a c hc _; cases hc
  | cons d L ih =>
    intro a c hc hg
    simp only [List.foldl_cons]
    rcases List.mem_cons.mp hc with h | h
    · subst h
      exact foldl_add_ge_init g L _ (fun e he => hg e (List.mem_cons_of_mem c he))
    · have h1 : a + g c ≤ a + g d + g c := by
        have := hg d (List.mem_cons_self d L)
        linarith
      exact le_trans h1 (ih _ c h (fun e he => hg e (List.mem_cons_of_mem d he)))

/-! ### Cheap projections of `disturb`, `step`, `resetTerrain`, `create` -/

lemma disturb_width (sim : WaveSimulation) (x y m : ℝ) :
    (sim.disturb x y m).width = sim.width := rfl

lemma disturb_height (sim : WaveSimulation) (x y m : ℝ) :
    (sim.disturb x y m).height = sim.height := rfl

lemma disturb_faults (sim : WaveSimulation) (x y m : ℝ) :
    (sim.disturb x y m).faults = sim.faults := rfl

lemma disturb_terrain (sim : WaveSimulation) (x y m : ℝ) :
    (sim.disturb x y m).terrain = sim.terrain := rfl

lemma disturb_boundaryMask (sim : WaveSimulation) (x y m : ℝ) :
    (sim.disturb x y m).boundaryMask = sim.boundaryMask := rfl

lemma disturb_uPrev (sim : WaveSimulation) (x y m : ℝ) :
    (sim.disturb x y m).uPrev = sim.uPrev := rfl

lemma disturb_time (sim : WaveSimulation) (x y m : ℝ) :
    (sim.disturb x y m).time = sim.time := rfl

lemma disturb_lastRupture (sim : WaveSimulation) (x y m : ℝ) :
    (sim.disturb x y m).lastRupture = some sim.time := rfl

lemma step_time (sim : WaveSimulation) (ws d : ℝ) :
    (sim.step ws d).1.time = sim.time + DT := rfl

lemma step_lastRupture (sim : WaveSimulation) (ws d : ℝ) :
    (sim.step ws d).1.lastRupture = sim.lastRupture := rfl

lemma resetTerrain_faults (sim : WaveSimulation) :
    (sim.resetTerrain).faults = sim.faults := by
  rw [resetTerrain_def]
  show ((cellList sim.width sim.height).foldl WaveSimulation.resetCell sim).faults = sim.faults
  exact resetFold_faults _ _

lemma create_width (w h : ℕ) : (WaveSimulation.create w h).width = w := by
  simp only [WaveSimulation.create]
  rw [resetTerrain_width]

lemma create_height (w h : ℕ) : (WaveSimulation.create w h).height = h := by
  simp only [WaveSimulation.create]
  rw [resetTerrain_height]

lemma create_faults (w h : ℕ) :
    (WaveSimulation.create w h).faults = (setFaults (w : ℝ) (h : ℝ) 3 ⟨9001⟩).1 := by
  simp only [WaveSimulation.create]
  rw [resetTerrain_faults]

lemma create_WF (w h : ℕ) : noiseWF (WaveSimulation.create w h).noise := by
  simp only [WaveSimulation.create]
  apply resetTerrain_WF
  intro ix iy g hg
  exact absurd hg (by simp)

/-! ### The arithmetic core of the end-to-end scenario -/

lemma nextValue_pos_bound (uc L stiff b : ℝ) (h1 : 5 ≤ uc) (h2 : -(4 * uc) ≤ L)
    (h3 : 0.35 ≤ stiff) (h4 : stiff ≤ 1.66) (h5 : 0.2 ≤ b) (h6 : b ≤ 1) :
    (9 : ℝ) ≤ (1 - 0.02) * (2 * uc - 0) + 2 * 2 * DT * DT * L * stiff / (DX * DX) * b := by
  rw [show DT = (0.016 : ℝ) from rfl, show DX = (1 : ℝ) from rfl]
  have hs0 : (0 : ℝ) ≤ stiff := by linarith
  have hb0 : (0 : ℝ) ≤ b := by linarith
  rcases le_or_lt 0 L with hL | hL
  · have hn : (0 : ℝ) ≤ 2 * 2 * 0.016 * 0.016 * L * stiff / (1 * 1) * b := by
      apply mul_nonneg (div_nonneg ?_ (by norm_num)) hb0
      exact mul_nonneg (mul_nonneg (by norm_num) hL) hs0
    nlinarith
  · have hLs1 : -(4 * uc) * stiff ≤ L * stiff := mul_le_mul_of_nonneg_right h2 hs0
    have hLs2 : -(4 * uc) * 1.66 ≤ -(4 * uc) * stiff := by
      nlinarith [mul_nonneg (by linarith : (0 : ℝ) ≤ 4 * uc)
        (by linarith : (0 : ℝ) ≤ 1.66 - stiff)]
    have hLs0 : L * stiff ≤ 0 := by
      nlinarith [mul_nonneg hs0 (by linarith : (0 : ℝ) ≤ -L)]
    have hLsb : L * stiff ≤ L * stiff * b := by
      nlinarith [mul_nonneg (by linarith : (0 : ℝ) ≤ -(L * stiff))
        (by linarith : (0 : ℝ) ≤ 1 - b)]
    nlinarith

lemma step_energy_closed (sim : WaveSimulation) (ws d : ℝ) :
    (sim.step ws d).2.2 =
      ((interiorCells sim.width sim.height).foldl
        (fun e c => e + 0.5 * sim.nextValue (ws * ws) (1 - d) (sim.index c.1 c.2) *
          sim.nextValue (ws * ws) (1 - d) (sim.index c.1 c.2)) 0) * 1e-3 := by
  rw [step_energy_eq, stepFold_energy]

lemma step_peak_ge (sim : WaveSimulation) (ws d : ℝ) (x y : ℕ)
    (hc : (x, y) ∈ interiorCells sim.width sim.height) :
    sim.nextValue (ws * ws) (1 - d) (sim.index x y) ≤ (sim.step ws d).2.1 := by
  rw [step_peak_eq, stepFold_peak]
  have hmax := foldl_max_ge_mem
    (fun c : ℕ × ℕ => |sim.nextValue (ws * ws) (1 - d) (sim.index c.1 c.2)|)
    (interiorCells sim.width sim.height) 0 (x, y) hc
  dsimp only at hmax
  exact le_trans (le_abs_self _) hmax

lemma step_energy_ge (sim : WaveSimulation) (ws d : ℝ) (x y : ℕ)
    (hc : (x, y) ∈ interiorCells sim.width sim.height) :
    0.5 * sim.nextValue (ws * ws) (1 - d) (sim.index x y) *
      sim.nextValue (ws * ws) (1 - d) (sim.index x y) * 1e-3 ≤ (sim.step ws d).2.2 := by
  rw [step_energy_closed]
  have hterm : ∀ c ∈ interiorCells sim.width sim.height,
      0 ≤ 0.5 * sim.nextValue (ws * ws) (1 - d) (sim.index c.1 c.2) *
        sim.nextValue (ws * ws) (1 - d) (sim.index c.1 c.2) := by
    intro c _
    nlinarith [sq_nonneg (sim.nextValue (ws * ws) (1 - d) (sim.index c.1 c.2))]
  have hge := foldl_add_ge_mem
    (fun c : ℕ × ℕ => 0.5 * sim.nextValue (ws * ws) (1 - d) (sim.index c.1 c.2) *
      sim.nextValue (ws * ws) (1 - d) (sim.index c.1 c.2))
    (interiorCells sim.width sim.height) 0 (x, y) hc hterm
  dsimp only at hge
  linarith [hge]

/-- C8: the end-to-end scenario.  A 200×120 simulation is constructed, reset,
disturbed at (100, 60) with magnitude 5, and stepped once with waveSpeed 2
and damping 0.02: the returned peak and energy are strictly positive,
`lastRupture = 0` and `time = 0.016`. -/
theorem C8_scenario :
    0 < c8res.2.1 ∧ 0 < c8res.2.2 ∧ c8res.1.lastRupture = some 0 ∧
    c8res.1.time = 0.016 := by
  have hc8 : c8sim = (WaveSimulation.create 200 120).resetTerrain := rfl
  have hW : c8sim.width = 200 := by rw [hc8, resetTerrain_width, create_width]
  have hH : c8sim.height = 120 := by rw [hc8, resetTerrain_height, create_height]
  have hfaults : c8sim.faults = (setFaults ((200 : ℕ) : ℝ) ((120 : ℕ) : ℝ) 3 ⟨9001⟩).1 := by
    rw [hc8, resetTerrain_faults, create_faults]
  have hstr : ∀ f ∈ c8sim.faults, 0 ≤ f.strength := by
    rw [hfaults]
    exact fun f hf => le_of_lt (setFaults_strength_pos _ _ _ _ f hf)
  have hz100 := resetTerrain_zero (WaveSimulation.create 200 120) 100 60
    (by rw [create_width]; norm_num) (by rw [create_height]; norm_num)
  have hz99 := resetTerrain_zero (WaveSimulation.create 200 120) 99 60
    (by rw [create_width]; norm_num) (by rw [create_height]; norm_num)
  have hz101 := resetTerrain_zero (WaveSimulation.create 200 120) 101 60
    (by rw [create_width]; norm_num) (by rw [create_height]; norm_num)
  have hz59 := resetTerrain_zero (WaveSimulation.create 200 120) 100 59
    (by rw [create_width]; norm_num) (by rw [create_height]; norm_num)
  have hz61 := resetTerrain_zero (WaveSimulation.create 200 120) 100 61
    (by rw [create_width]; norm_num) (by rw [create_height]; norm_num)
  rw [← hc8, create_width] at hz100 hz99 hz101 hz59 hz61
  norm_num at hz100 hz99 hz101 hz59 hz61
  have hdist : c8dist = c8sim.disturb 100 60 5 := rfl
  have hcen := disturb_center c8sim 100 60 5 (by norm_num) (by norm_num)
    (by rw [hW]; norm_num) (by norm_num) (by rw [hH]; norm_num)
  have hidx : c8sim.index 100 60 = 12100 := by
    simp only [WaveSimulation.index, hW]
  rw [hidx] at hcen
  push_cast at hcen
  rw [← hdist, hz100.2.1] at hcen
  have hboost : 0 ≤ energyBoost c8sim.faults 100 60 := energyBoost_nonneg _ hstr 100 60
  have huc : 5 ≤ c8dist.uCurrent 12100 := by
    rw [hcen]
    linarith
  have hmono : ∀ p, c8sim.uCurrent p ≤ c8dist.uCurrent p := by
    intro p
    rw [hdist, disturb_uCurrent_apply]
    have h0 := disturbField_nonneg c8sim 100 60 5 p (by norm_num) hstr
    linarith
  have hn99 : 0 ≤ c8dist.uCurrent 12099 := by
    have h := hmono 12099
    rw [hz99.2.1] at h
    exact h
  have hn101 : 0 ≤ c8dist.uCurrent 12101 := by
    have h := hmono 12101
    rw [hz101.2.1] at h
    exact h
  have hn59 : 0 ≤ c8dist.uCurrent 11900 := by
    have h := hmono 11900
    rw [hz59.2.1] at h
    exact h
  have hn61 : 0 ≤ c8dist.uCurrent 12300 := by
    have h := hmono 12300
    rw [hz61.2.1] at h
    exact h
  obtain ⟨ns, hWFp, ht, hm⟩ := resetTerrain_written (WaveSimulation.create 200 120) 100 60
    (by rw [create_width]; norm_num) (by rw [create_height]; norm_num)
  rw [← hc8, create_width, create_height] at ht hm
  norm_num [Real.exp_zero, min_self] at ht hm
  have hWFns : noiseWF ns := hWFp (create_WF 200 120)
  have hfbm : |(ns.fbm 3 3 5).1| ≤ 0.5 * (40 / 9) :=
    fbmAux_val_bound 3 3 5 ns 0.5 0.9 hWFns (by norm_num)
  rw [abs_le] at hfbm
  have hstiff_lo : (0.35 : ℝ) ≤ 1 + c8sim.terrain 12100 * 0.6 := by
    rw [ht]
    linarith [hfbm.1]
  have hstiff_hi : 1 + c8sim.terrain 12100 * 0.6 ≤ 1.66 := by
    rw [ht]
    linarith [hfbm.2]
  have hb_lo : (0.2 : ℝ) ≤ max (c8sim.boundaryMask 12100) 0.2 := le_max_right _ _
  have hb_hi : max (c8sim.boundaryMask 12100) 0.2 ≤ 1 := by
    apply max_le
    · rw [hm]
      exact Real.rpow_le_one (by norm_num) (by norm_num) (by norm_num)
    · norm_num
  clear hfbm hWFns ht hm hWFp
  clear ns
  have hres : c8res = c8dist.step 2 0.02 := rfl
  have hdw : c8dist.width = 200 := by rw [hdist, disturb_width, hW]
  have hdh : c8dist.height = 120 := by rw [hdist, disturb_height, hH]
  have hup : c8dist.uPrev 12100 = 0 := by
    rw [hdist, disturb_uPrev]
    exact hz100.1
  have hterr' : c8dist.terrain 12100 = c8sim.terrain 12100 := by rw [hdist, disturb_terrain]
  have hmask' : c8dist.boundaryMask 12100 = c8sim.boundaryMask 12100 := by
    rw [hdist, disturb_boundaryMask]
  have hnv9 : (9 : ℝ) ≤ c8dist.nextValue (2 * 2) (1 - 0.02) 12100 := by
    unfold WaveSimulation.nextValue WaveSimulation.laplacian
    rw [hdw, hup, hterr', hmask']
    rw [show (12100 : ℕ) - 1 = 12099 from by norm_num,
      show (12100 : ℕ) + 1 = 12101 from by norm_num,
      show (12100 : ℕ) - 200 = 11900 from by norm_num,
      show (12100 : ℕ) + 200 = 12300 from by norm_num]
    exact nextValue_pos_bound (c8dist.uCurrent 12100)
      (c8dist.uCurrent 12099 + c8dist.uCurrent 12101 + c8dist.uCurrent 11900 +
        c8dist.uCurrent 12300 - 4 * c8dist.uCurrent 12100)
      (1 + c8sim.terrain 12100 * 0.6) (max (c8sim.boundaryMask 12100) 0.2)
      huc (by linarith) hstiff_lo hstiff_hi hb_lo hb_hi
  have hmem : ((100, 60) : ℕ × ℕ) ∈ interiorCells c8dist.width c8dist.height := by
    rw [hdw, hdh]
    exact mem_interiorCells.mpr (by norm_num)
  have hidxd : c8dist.index 100 60 = 12100 := by
    simp only [WaveSimulation.index, hdw]
  have hpeak := step_peak_ge c8dist 2 0.02 100 60 hmem
  rw [hidxd] at hpeak
  have hpos_peak : 0 < c8res.2.1 := by
    rw [hres]
    linarith [hpeak, hnv9]
  have henergy := step_energy_ge c8dist 2 0.02 100 60 hmem
  rw [hidxd] at henergy
  have h0nv : (0 : ℝ) ≤ c8dist.nextValue (2 * 2) (1 - 0.02) 12100 := by linarith [hnv9]
  have hsq : (81 : ℝ) ≤ c8dist.nextValue (2 * 2) (1 - 0.02) 12100 *
      c8dist.nextValue (2 * 2) (1 - 0.02) 12100 := by
    have h := mul_le_mul hnv9 hnv9 (by norm_num) h0nv
    linarith [h]
  have hpos_energy : 0 < c8res.2.2 := by
    rw [hres]
    linarith [henergy, hsq]
  have hlr : c8res.1.lastRupture = some 0 := by
    rw [hres, step_lastRupture, hdist, disturb_lastRupture, hc8, resetTerrain_time]
  have htime : c8res.1.time = 0.016 := by
    rw [hres, step_time, hdist, disturb_time, hc8, resetTerrain_time]
    rw [show DT = (0.016 : ℝ) from rfl]
    norm_num
  exact ⟨hpos_peak, hpos_energy, hlr, htime⟩
